import Mathlib

/-!
# Verification of the Symmetries image-compositing editor core

A shallow embedding of the scene-state and crop-geometry engine of
`src/app.js` (the undo-capable, id-tracking variant, which the design notes
treat as canonical).  Numbers are modelled as rationals `ℚ`; JavaScript's
`%`, `Math.round`, `Math.trunc`, `Math.abs`, `Math.min` and `Math.max` are
given exact rational models below.  Opaque raster handles (decoded `Image`
objects) are modelled as natural-number tokens; they are only ever compared
by reference, never inspected.
-/

namespace Symmetries

/-- The four edge names used for crop handles and source edges
(`'top' | 'right' | 'bottom' | 'left'` in `app.js`). -/
inductive Edge where
  | top
  | right
  | bottom
  | left
deriving DecidableEq, Repr

/-- JavaScript `Math.trunc`, also the implicit integer part taken by the JS
`%` operator: rounds toward zero. -/
def jsTrunc (q : ℚ) : ℤ :=
  if 0 ≤ q then ⌊q⌋ else -⌊-q⌋

/-- JavaScript remainder operator `a % m`: `a - m * trunc (a / m)`; the
result carries the sign of the dividend. -/
def jsRem (a m : ℚ) : ℚ :=
  a - m * jsTrunc (a / m)

/-- JavaScript `Math.round`: round half toward positive infinity. -/
def jsRound (q : ℚ) : ℤ :=
  ⌊q + 1/2⌋

/-- The rotation normalisation `((rotation % 360) + 360) % 360` performed at
the top of `getSourceEdge` (and repeated inside `applyCropBounds`). -/
def normalizeRot (r : ℚ) : ℚ :=
  jsRem (jsRem r 360 + 360) 360

/-- The quadrant snap `Math.round(rot / 90) * 90 % 360` applied to the
normalised rotation. -/
def snapRot (r : ℚ) : ℤ :=
  jsRound (normalizeRot r / 90) * 90 % 360

/-- The fixed `rotationMaps` table of `getSourceEdge`: for each snapped
rotation, which source edge each visual handle corresponds to.  Keys other
than 0/90/180/270 are absent (`none`), mirroring the JS object lookup. -/
def rotMapAt (k : ℤ) (e : Edge) : Option Edge :=
  if k = 0 then
    some e
  else if k = 90 then
    some (match e with | .top => .left | .right => .top | .bottom => .right | .left => .bottom)
  else if k = 180 then
    some (match e with | .top => .bottom | .right => .left | .bottom => .top | .left => .right)
  else if k = 270 then
    some (match e with | .top => .right | .right => .bottom | .bottom => .left | .left => .top)
  else
    none

/-- The fixed `visualMaps` table of `applyCropBounds`: for each snapped
rotation, which visual direction a (flip-adjusted) source edge faces. -/
def visMapAt (k : ℤ) (e : Edge) : Option Edge :=
  if k = 0 then
    some e
  else if k = 90 then
    some (match e with | .top => .right | .right => .bottom | .bottom => .left | .left => .top)
  else if k = 180 then
    some (match e with | .top => .bottom | .right => .left | .bottom => .top | .left => .right)
  else if k = 270 then
    some (match e with | .top => .left | .right => .top | .bottom => .right | .left => .bottom)
  else
    none

/-- The flip adjustment shared by `getSourceEdge` and `applyCropBounds`:
a negative `scaleX` swaps `left`/`right`, then a negative `scaleY` swaps
`top`/`bottom`. -/
def flipEdge (sx sy : ℚ) (e : Edge) : Edge :=
  let e1 := if sx < 0 then
      (match e with | .left => .right | .right => .left | x => x)
    else e
  if sy < 0 then
    (match e1 with | .top => .bottom | .bottom => .top | x => x)
  else e1

/-- `getSourceEdge(visualHandle, rotation, scaleX, scaleY)` of `app.js`:
normalise and snap the rotation, look the visual handle up in the quadrant
table, then apply the flip swaps. -/
def getSourceEdge (visualHandle : Edge) (rotation sx sy : ℚ) : Option Edge :=
  (rotMapAt (snapRot rotation) visualHandle).map (flipEdge sx sy)

/-- The source-edge-to-visual-edge map used for anchoring inside
`applyCropBounds`: apply the flip swaps first, then look the result up in
the `visualMaps` quadrant table. -/
def visualEdgeFor (sourceEdge : Edge) (rotation sx sy : ℚ) : Option Edge :=
  visMapAt (snapRot rotation) (flipEdge sx sy sourceEdge)

/-- Mathematical modulo on rationals, `r - m * ⌊r / m⌋`; this is the
"mod 180" of the specification's sideways band `(45°, 135°) mod 180`. -/
def qmod (r m : ℚ) : ℚ := r - m * ⌊r / m⌋

/-! ### Scene entity model -/

/-- The `cropBounds` attribute `{top, right, bottom, left}`: margins in
source-pixel units trimmed from each side of the source raster. -/
structure CropBounds where
  top : ℚ
  right : ℚ
  bottom : ℚ
  left : ℚ
deriving DecidableEq, Repr

/-- A placed image: the per-node state `app.js` keeps on a `Konva.Image`
(listed in the order `captureState` serialises it).  `imageRef` is the
opaque decoded-raster handle (`originalImage`); the node's `width`,
`height`, `offsetX`, `offsetY` and `crop` rectangle are derived from
`cropBounds` and the original dimensions by `applyCropBounds` /
`createKonvaImageFromState`, so they are not separate fields here. -/
structure Img where
  id : ℕ
  imageRef : ℕ
  originalWidth : ℚ
  originalHeight : ℚ
  x : ℚ
  y : ℚ
  scaleX : ℚ
  scaleY : ℚ
  rotation : ℚ
  cropBounds : CropBounds
  blendMode : String
  opacity : ℚ
  name : String
deriving DecidableEq, Repr

/-- Cropped width of a node, `originalWidth - cropBounds.left - cropBounds.right`;
this is the node's `width()` maintained by `applyCropBounds`. -/
def cropW (n : Img) : ℚ :=
  n.originalWidth - n.cropBounds.left - n.cropBounds.right

/-- Cropped height of a node, `originalHeight - cropBounds.top - cropBounds.bottom`;
this is the node's `height()` maintained by `applyCropBounds`. -/
def cropH (n : Img) : ℚ :=
  n.originalHeight - n.cropBounds.top - n.cropBounds.bottom

/-- `isRotatedSideways(node)`: the rotation is closer to 90°/270° than to
0°/180°, computed as `Math.abs(node.rotation() % 180)` being strictly
between 45 and 135. -/
def isRotatedSideways (r : ℚ) : Bool :=
  decide (45 < |jsRem r 180|) && decide (|jsRem r 180| < 135)

/-- The field update performed by `flipHorizontal()` on the selected node:
negate `scaleY` when sideways, else negate `scaleX`. -/
def flipHorizontalImg (n : Img) : Img :=
  if isRotatedSideways n.rotation then
    { n with scaleY := n.scaleY * -1 }
  else
    { n with scaleX := n.scaleX * -1 }

/-- The field update performed by `flipVertical()` on the selected node:
negate `scaleX` when sideways, else negate `scaleY`. -/
def flipVerticalImg (n : Img) : Img :=
  if isRotatedSideways n.rotation then
    { n with scaleX := n.scaleX * -1 }
  else
    { n with scaleY := n.scaleY * -1 }

/-- A concrete node rotated to exactly 90°, used as the C7 witness input. -/
def imgRot90 : Img :=
  ⟨0, 0, 100, 80, 0, 0, 1, 1, 90, ⟨0, 0, 0, 0⟩, "source-over", 1, "a"⟩

/-! ### Crop geometry -/

/-- A client rectangle `{x, y, width, height}` as returned by Konva's
`getClientRect`. -/
structure Rect where
  x : ℚ
  y : ℚ
  width : ℚ
  height : ℚ
deriving DecidableEq, Repr

/-- Konva's `node.getClientRect({relativeTo: stage})`: the axis-aligned
bounding box of the node's four transformed local corners.  The node
transform translates to `(x, y)`, rotates, scales by `(scaleX, scaleY)`
and subtracts the offset (half the cropped size).  `c` and `s` are the
cosine and sine of the node's rotation angle, passed explicitly so the
geometry stays in exact rational arithmetic (Konva computes them from
`rotation` in degrees). -/
def clientRect (n : Img) (c s : ℚ) : Rect :=
  let w := cropW n
  let h := cropH n
  let tx := fun px py : ℚ => n.x + c * n.scaleX * (px - w / 2) - s * n.scaleY * (py - h / 2)
  let ty := fun px py : ℚ => n.y + s * n.scaleX * (px - w / 2) + c * n.scaleY * (py - h / 2)
  let minX := min (min (tx 0 0) (tx w 0)) (min (tx 0 h) (tx w h))
  let maxX := max (max (tx 0 0) (tx w 0)) (max (tx 0 h) (tx w h))
  let minY := min (min (ty 0 0) (ty w 0)) (min (ty 0 h) (ty w h))
  let maxY := max (max (ty 0 0) (ty w 0)) (max (ty 0 h) (ty w h))
  ⟨minX, minY, maxX - minX, maxY - minY⟩

/-- The `anchorSourceEdge` opposite-edge table inside `applyCropBounds`. -/
def oppositeEdge : Edge → Edge
  | .left => .right
  | .right => .left
  | .top => .bottom
  | .bottom => .top

/-- The `dx`/`dy` anchor correction switch of `applyCropBounds`: compares
the before/after client rectangles on the visual anchor edge (`dx` and `dy`
start at 0 and only one of them is set). -/
def anchorDelta (visualAnchor : Edge) (rb ra : Rect) : ℚ × ℚ :=
  match visualAnchor with
  | .left => (rb.x - ra.x, 0)
  | .right => (rb.x + rb.width - (ra.x + ra.width), 0)
  | .top => (0, rb.y - ra.y)
  | .bottom => (0, rb.y + rb.height - (ra.y + ra.height))

/-- `applyCropBounds(node, cropBounds, sourceEdgeBeingCropped)`: guard on
missing original dimensions and on a non-positive cropped size, store the
new crop (the node's `crop`/`width`/`height`/`offset` are derived fields),
then re-anchor: map the opposite source edge through the flip swaps and the
inverse quadrant table, and translate the node by the before/after client
rectangle difference on that visual edge.  The `sourceEdgeBeingCropped`
argument is an `Option` because the JS `if (anchorSourceEdge)` treats a
missing edge as "no anchoring". -/
def applyCropBounds (n : Img) (cb : CropBounds) (sourceEdgeBeingCropped : Option Edge)
    (c s : ℚ) : Img :=
  if n.originalWidth = 0 ∨ n.originalHeight = 0 then n
  else
    let cw := n.originalWidth - cb.left - cb.right
    let ch := n.originalHeight - cb.top - cb.bottom
    if cw ≤ 0 ∨ ch ≤ 0 then n
    else
      let rectBefore := clientRect n c s
      let n1 : Img := { n with cropBounds := cb }
      let rectAfter := clientRect n1 c s
      match sourceEdgeBeingCropped with
      | none => n1
      | some e =>
          match visMapAt (snapRot n1.rotation) (flipEdge n1.scaleX n1.scaleY (oppositeEdge e)) with
          | none => n1
          | some visualAnchor =>
              let d := anchorDelta visualAnchor rectBefore rectAfter
              { n1 with x := n1.x + d.1, y := n1.y + d.2 }

/-- The clamping `switch (sourceEdge)` of `updateCropFromHandle`: the
dragged source edge's bound becomes
`Math.max(0, Math.min(sourceDimension - oppositeBound - minSize, bound + sourceDelta))`
with `minSize = 20`; a missed table lookup (impossible) leaves the crop
unchanged. -/
def clampNewCrop (sourceEdge : Option Edge) (cur : CropBounds) (ow oh d : ℚ) : CropBounds :=
  let minSize : ℚ := 20
  match sourceEdge with
  | none => cur
  | some .top => { cur with top := max 0 (min (oh - cur.bottom - minSize) (cur.top + d)) }
  | some .bottom => { cur with bottom := max 0 (min (oh - cur.top - minSize) (cur.bottom + d)) }
  | some .left => { cur with left := max 0 (min (ow - cur.right - minSize) (cur.left + d)) }
  | some .right => { cur with right := max 0 (min (ow - cur.left - minSize) (cur.right + d)) }

/-- `updateCropFromHandle(node, handle, visualPosition)`: read the dragged
handle's position `(hx, hy)` and size `(hw, hh)`, measure the visual inset
of that handle from the matching client-rectangle edge, convert it to
source pixels by the absolute scale on that visual axis, resolve the source
edge through `getSourceEdge`, clamp the new bound, and delegate to
`applyCropBounds`. -/
def updateCropFromHandle (n : Img) (visualPosition : Edge) (hx hy hw hh c s : ℚ) : Img :=
  if n.originalWidth = 0 then n
  else
    let currentCrop := n.cropBounds
    let rect := clientRect n c s
    let absScaleX := |n.scaleX|
    let absScaleY := |n.scaleY|
    let sourceEdge := getSourceEdge visualPosition n.rotation n.scaleX n.scaleY
    let visualDelta :=
      match visualPosition with
      | .top => hy + hh / 2 - rect.y
      | .bottom => rect.y + rect.height - hy - hh / 2
      | .left => hx + hw / 2 - rect.x
      | .right => rect.x + rect.width - hx - hw / 2
    let scale :=
      match visualPosition with
      | .left => absScaleX
      | .right => absScaleX
      | _ => absScaleY
    let sourceDelta := visualDelta / scale
    let newCrop := clampNewCrop sourceEdge currentCrop n.originalWidth n.originalHeight sourceDelta
    applyCropBounds n newCrop sourceEdge c s

/-- The crop-bounds invariant: every component non-negative, and each pair
of opposite bounds leaves at least the 20 px minimum crop size. -/
def cropInv (cb : CropBounds) (ow oh : ℚ) : Prop :=
  0 ≤ cb.top ∧ 0 ≤ cb.right ∧ 0 ≤ cb.bottom ∧ 0 ≤ cb.left ∧
    cb.top + cb.bottom ≤ oh - 20 ∧ cb.left + cb.right ≤ ow - 20

/-- One crop-handle drag event: the visual handle being dragged, the
handle's dragged position and dimensions, and the cosine/sine of the node's
rotation. -/
structure CropStep where
  pos : Edge
  hx : ℚ
  hy : ℚ
  hw : ℚ
  hh : ℚ
  c : ℚ
  s : ℚ
deriving DecidableEq, Repr

/-- A sequence of crop-handle drag events applied through
`updateCropFromHandle`. -/
def applyCropSteps (steps : List CropStep) (n : Img) : Img :=
  steps.foldl (fun m st => updateCropFromHandle m st.pos st.hx st.hy st.hw st.hh st.c st.s) n

/-- The stage-space coordinate of one edge of a client rectangle. -/
def edgeCoord (r : Rect) : Edge → ℚ
  | .left => r.x
  | .right => r.x + r.width
  | .top => r.y
  | .bottom => r.y + r.height

/-- Whether a candidate crop differs from the current one on at most the
given edge (the other three bounds agree). -/
def agreesOffEdge (cb cb' : CropBounds) : Edge → Prop
  | .top => cb.right = cb'.right ∧ cb.bottom = cb'.bottom ∧ cb.left = cb'.left
  | .right => cb.top = cb'.top ∧ cb.bottom = cb'.bottom ∧ cb.left = cb'.left
  | .bottom => cb.top = cb'.top ∧ cb.right = cb'.right ∧ cb.left = cb'.left
  | .left => cb.top = cb'.top ∧ cb.right = cb'.right ∧ cb.bottom = cb'.bottom

/-- A concrete uncropped 100×100 node at the origin with identity transform,
used for the crop witnesses and the C5 counterexample. -/
def imgPlain : Img :=
  ⟨1, 0, 100, 100, 0, 0, 1, 1, 0, ⟨0, 0, 0, 0⟩, "source-over", 1, "img"⟩

/-! ### Snapshots and the editor session -/

/-- One entry of a `captureState` snapshot: the per-image fields plus the
explicit `zIndex` recorded with them. -/
structure SnapImg where
  img : Img
  zIndex : ℤ
deriving DecidableEq, Repr

/-- `captureState`'s `blendMode: img.getAttr('blendMode') || 'source-over'`:
a falsy (empty) blend mode string is replaced by the default. -/
def normBlend (im : Img) : Img :=
  { im with blendMode := if im.blendMode = "" then "source-over" else im.blendMode }

/-- The per-image serialisation loop of `captureState`, threading the
running array index assigned as `zIndex`. -/
def captureAux (k : ℤ) : List Img → List SnapImg
  | [] => []
  | im :: t => ⟨normBlend im, k⟩ :: captureAux (k + 1) t

/-- `captureState()`: serialise the scene's images in stacking order (the
scene list is kept in `zIndex` order, so the `sort` in the source is the
identity there) and assign `zIndex := index`.  The constant `version: 2`
field is omitted. -/
def captureState (imgs : List Img) : List SnapImg :=
  captureAux 0 imgs

/-- Stable insertion of a snapshot entry into a `zIndex`-sorted list
(equal keys keep their relative order, as with the JS comparator
`(a, b) => a.zIndex - b.zIndex` under a stable `Array.sort`). -/
def insertZ (a : SnapImg) : List SnapImg → List SnapImg
  | [] => [a]
  | b :: t => if a.zIndex < b.zIndex then a :: b :: t else b :: insertZ a t

/-- The stable sort by `zIndex` used by `restoreState`. -/
def sortZ : List SnapImg → List SnapImg
  | [] => []
  | a :: t => insertZ a (sortZ t)

/-- The image list rebuilt by `restoreState`: sort the snapshot by
`zIndex`, then `createKonvaImageFromState` each entry (whose derived
`crop`/`width`/`offset` fields are functions of `cropBounds`, so the
rebuilt node is the stored `Img` itself). -/
def restoreScene (entries : List SnapImg) : List Img :=
  (sortZ entries).map SnapImg.img

/-- The editor session: the image layer's children in stacking order, the
transformer's selection (by image id), the undo/redo stacks, the id
generator counter (`generateImageId` modelled as a fresh-counter supply),
`imageCount`, and the stage viewport. -/
structure EditorState where
  scene : List Img
  selection : Option ℕ
  undoStack : List (List SnapImg)
  redoStack : List (List SnapImg)
  nextId : ℕ
  imageCount : ℕ
  stageW : ℚ
  stageH : ℚ
  stageX : ℚ
  stageY : ℚ
  stageScale : ℚ
deriving DecidableEq, Repr

/-- `MAX_UNDO_LEVELS`. -/
def maxUndoLevels : ℕ := 30

/-- The `while (undoStack.length > MAX_UNDO_LEVELS) undoStack.shift()`
loop: drop oldest entries from the front until at most 30 remain. -/
def dropToMax (l : List (List SnapImg)) : List (List SnapImg) :=
  if l.length > maxUndoLevels then l.drop (l.length - maxUndoLevels) else l

/-- `getViewportCenter()`. -/
def viewportCenter (s : EditorState) : ℚ × ℚ :=
  ((s.stageW / 2 - s.stageX) / s.stageScale, (s.stageH / 2 - s.stageY) / s.stageScale)

/-- `getSelectedImage()` resolved against the scene by id
(`findImageById`). -/
def getSelectedImage (s : EditorState) : Option Img :=
  s.selection.bind (fun i => s.scene.find? (fun im => im.id == i))

/-- `restoreState(state)`: destroy all images, rebuild from the snapshot
sorted by `zIndex`, and restore the selection by id when the image still
exists. -/
def restoreStateS (entries : List SnapImg) (s : EditorState) : EditorState :=
  let newScene := restoreScene entries
  { s with
    scene := newScene
    selection := match s.selection with
      | some i => if newScene.any (fun im => im.id == i) then some i else none
      | none => none }

/-- `pushUndo()`: capture, append, truncate to 30 dropping oldest, clear
the redo stack. -/
def pushUndoS (s : EditorState) : EditorState :=
  { s with
    undoStack := dropToMax (s.undoStack ++ [captureState s.scene])
    redoStack := [] }

/-- `undo()`: no-op on an empty stack, else push the current capture onto
the redo stack, pop and restore. -/
def undoS (s : EditorState) : EditorState :=
  match s.undoStack.getLast? with
  | none => s
  | some prev =>
      restoreStateS prev
        { s with
          undoStack := s.undoStack.dropLast
          redoStack := s.redoStack ++ [captureState s.scene] }

/-- `redo()`: symmetric to `undo()`; note the push onto the undo stack is
not truncated. -/
def redoS (s : EditorState) : EditorState :=
  match s.redoStack.getLast? with
  | none => s
  | some nxt =>
      restoreStateS nxt
        { s with
          redoStack := s.redoStack.dropLast
          undoStack := s.undoStack ++ [captureState s.scene] }

/-! ### Scene store operations -/

/-- Replace the first image with the given id (the Konva node object the
source mutates in place). -/
def replaceFirstById (l : List Img) (i : ℕ) (f : Img → Img) : List Img :=
  match l with
  | [] => []
  | im :: t => if im.id = i then f im :: t else im :: replaceFirstById t i f

/-- Remove the first image with the given id (`node.destroy()`). -/
def removeFirstById (l : List Img) (i : ℕ) : List Img :=
  match l with
  | [] => []
  | im :: t => if im.id = i then t else im :: removeFirstById t i

/-- `node.moveToTop()` among the scene's images. -/
def moveToTopById (l : List Img) (i : ℕ) : List Img :=
  match l.find? (fun im => im.id == i) with
  | none => l
  | some im => removeFirstById l i ++ [im]

/-- `node.moveToBottom()` among the scene's images. -/
def moveToBottomById (l : List Img) (i : ℕ) : List Img :=
  match l.find? (fun im => im.id == i) with
  | none => l
  | some im => im :: removeFirstById l i

/-- `duplicateImage()`'s clone: every attribute copied, position offset by
(30, 30), and a freshly generated id. -/
def duplicateImg (n : Img) (nid : ℕ) : Img :=
  { n with id := nid, x := n.x + 30, y := n.y + 30 }

/-- `resetCrop()`: clear the crop bounds (the node's `crop`, `width`,
`height` and `offset` are derived fields restored to the full source). -/
def resetCropImg (m : Img) : Img :=
  { m with cropBounds := ⟨0, 0, 0, 0⟩ }

/-- `addImage`'s `img.onload` body after the `pushUndo()`: auto-scale down
to 60% of the shorter stage dimension, place at the viewport centre with
the cascade offset `imageCount * 30`, and select the new image. -/
def addImageS (ref : ℕ) (w h : ℚ) (fileName : String) (s : EditorState) : EditorState :=
  let maxDim := min s.stageW s.stageH * (6 / 10)
  let scale := if w > maxDim ∨ h > maxDim then maxDim / max w h else 1
  let center := viewportCenter s
  let im : Img :=
    { id := s.nextId, imageRef := ref, originalWidth := w, originalHeight := h,
      x := center.1 + (s.imageCount : ℚ) * 30, y := center.2 + (s.imageCount : ℚ) * 30,
      scaleX := scale, scaleY := scale, rotation := 0,
      cropBounds := ⟨0, 0, 0, 0⟩, blendMode := "source-over", opacity := 1,
      name := if fileName = "" then "image-" ++ toString s.imageCount else fileName }
  { s with
    scene := s.scene ++ [im]
    selection := some im.id
    nextId := s.nextId + 1
    imageCount := s.imageCount + 1 }

/-- The single mutating user operations that push an undo snapshot. -/
inductive Op where
  | addImage (ref : ℕ) (w h : ℚ) (fileName : String)
  | move (nx ny : ℚ)
  | transformNode (nx ny nsx nsy : ℚ)
  | cropDrag (pos : Edge) (hx hy hw hh c s : ℚ)
  | resetCrop
  | flipH
  | flipV
  | rotateL
  | rotateR
  | duplicate
  | bringToTop
  | sendToBottom
  | deleteSelected
  | setBlendMode (mode : String)
  | setOpacity (percent : ℚ)
deriving DecidableEq, Repr

/-- The scene mutation of a selection-based operation, applied after its
`pushUndo()` (`n` is the selected node). -/
def applySel (op : Op) (n : Img) (s : EditorState) : EditorState :=
  match op with
  | .move nx ny =>
      { s with scene := replaceFirstById s.scene n.id (fun m => { m with x := nx, y := ny }) }
  | .transformNode nx ny nsx nsy =>
      { s with
        scene :=
          replaceFirstById s.scene n.id
            (fun m => { m with x := nx, y := ny, scaleX := nsx, scaleY := nsy }) }
  | .cropDrag pos hx hy hw hh c sc =>
      { s with
        scene :=
          replaceFirstById s.scene n.id
            (fun m => updateCropFromHandle m pos hx hy hw hh c sc) }
  | .resetCrop => { s with scene := replaceFirstById s.scene n.id resetCropImg }
  | .flipH => { s with scene := replaceFirstById s.scene n.id flipHorizontalImg }
  | .flipV => { s with scene := replaceFirstById s.scene n.id flipVerticalImg }
  | .rotateL =>
      { s with
        scene :=
          replaceFirstById s.scene n.id (fun m => { m with rotation := m.rotation - 90 }) }
  | .rotateR =>
      { s with
        scene :=
          replaceFirstById s.scene n.id (fun m => { m with rotation := m.rotation + 90 }) }
  | .duplicate =>
      { s with
        scene := s.scene ++ [duplicateImg n s.nextId]
        selection := some s.nextId
        nextId := s.nextId + 1
        imageCount := s.imageCount + 1 }
  | .bringToTop => { s with scene := moveToTopById s.scene n.id }
  | .sendToBottom => { s with scene := moveToBottomById s.scene n.id }
  | .deleteSelected => { s with scene := removeFirstById s.scene n.id, selection := none }
  | .setBlendMode mode =>
      { s with scene := replaceFirstById s.scene n.id (fun m => { m with blendMode := mode }) }
  | .setOpacity percent =>
      { s with
        scene :=
          replaceFirstById s.scene n.id
            (fun m => { m with opacity := max 0 (min 100 percent) / 100 }) }
  | .addImage _ _ _ _ => s

/-- One user operation end-to-end: a silent no-op when it needs a selection
and none exists, otherwise `pushUndo()` followed by the mutation. -/
def applyOp (op : Op) (s : EditorState) : EditorState :=
  match op with
  | .addImage ref w h nm => addImageS ref w h nm (pushUndoS s)
  | _ =>
      match getSelectedImage s with
      | none => s
      | some n => applySel op n (pushUndoS s)

/-- Whether the operation pushes an undo snapshot on this state. -/
def opPushes (op : Op) (s : EditorState) : Bool :=
  match op with
  | .addImage _ _ _ _ => true
  | _ => (getSelectedImage s).isSome

/-- Blend modes set through the UI come from the fixed `blendModes` list
and are never the empty string. -/
def opBlendOk (op : Op) : Prop :=
  match op with
  | .setBlendMode mode => mode ≠ ""
  | _ => True

/-- Whether a newly added image's source dimensions admit the 20 px
minimum crop. -/
def opDimsOk (op : Op) : Prop :=
  match op with
  | .addImage _ w h _ => 20 ≤ w ∧ 20 ≤ h
  | _ => True

/-- An interaction step: a mutating operation, `undo()`, or `redo()`. -/
inductive Action where
  | edit (op : Op)
  | undo
  | redo
deriving DecidableEq, Repr

def applyAction (s : EditorState) (a : Action) : EditorState :=
  match a with
  | .edit op => applyOp op s
  | .undo => undoS s
  | .redo => redoS s

def runActions (acts : List Action) (s : EditorState) : EditorState :=
  acts.foldl applyAction s

/-- The session as the page loads: empty scene, empty stacks, stage sized
to the wrapper. -/
def initState (w h : ℚ) : EditorState :=
  { scene := [], selection := none, undoStack := [], redoStack := [],
    nextId := 0, imageCount := 0, stageW := w, stageH := h,
    stageX := 0, stageY := 0, stageScale := 1 }

/-- A concrete one-image session with the image selected, used for
witnesses. -/
def stateOne : EditorState :=
  { scene := [imgPlain], selection := some 1, undoStack := [], redoStack := [],
    nextId := 2, imageCount := 1, stageW := 800, stageH := 600,
    stageX := 0, stageY := 0, stageScale := 1 }

/-- `stateOne` with a full (30-entry) undo stack, for the C6 witness. -/
def stateFull : EditorState :=
  { stateOne with undoStack := List.replicate 30 [] }

/-! ### Project archives -/

/-- A decoded PNG from an archive's `images/` folder: an opaque raster
handle plus its natural dimensions. -/
structure ImgFile where
  ref : ℕ
  width : ℚ
  height : ℚ
deriving DecidableEq, Repr

/-- One entry of `project.json`'s `images` array; optional fields model
the version-1 archives that may omit them. -/
structure ArchiveImage where
  filename : String
  id? : Option ℕ
  x : ℚ
  y : ℚ
  scaleX : ℚ
  scaleY : ℚ
  rotation : ℚ
  cropBounds? : Option CropBounds
  blendMode? : Option String
  opacity? : Option ℚ
  originalWidth? : Option ℚ
  originalHeight? : Option ℚ
  name? : Option String
  zIndex? : Option ℤ
deriving DecidableEq, Repr

/-- A `.montage` archive: the parsed `project.json` (or `none` when the
entry is missing) and the `images/` folder as filename-keyed decoded
rasters. -/
structure Archive where
  projectJson : Option (List ArchiveImage)
  imageFiles : List (String × ImgFile)
deriving DecidableEq, Repr

/-- `imgFolder.file(filename)`. -/
def findFile (a : Archive) (fn : String) : Option ImgFile :=
  (a.imageFiles.find? (fun p => p.1 == fn)).map Prod.snd

/-- The image loop of `deserializeStateFromZip`: a missing image file is
skipped with a console warning (`continue`); otherwise the entry is
rebuilt with the version-1 defaults (`id` freshly generated when absent,
zero crop, `source-over`, opacity 1, `image-i` name, array-index
`zIndex`).  The id-generator counter is threaded through. -/
def deserializeImages (a : Archive) : List ArchiveImage → ℕ → ℕ → List SnapImg × ℕ
  | [], _, nid => ([], nid)
  | d :: t, i, nid =>
      match findFile a d.filename with
      | none => deserializeImages a t (i + 1) nid
      | some f =>
          let idAndNext : ℕ × ℕ :=
            match d.id? with
            | some j => (j, nid)
            | none => (nid, nid + 1)
          let entry : SnapImg :=
            ⟨{ id := idAndNext.1, imageRef := f.ref,
               originalWidth := d.originalWidth?.getD f.width,
               originalHeight := d.originalHeight?.getD f.height,
               x := d.x, y := d.y, scaleX := d.scaleX, scaleY := d.scaleY,
               rotation := d.rotation,
               cropBounds := d.cropBounds?.getD ⟨0, 0, 0, 0⟩,
               blendMode := d.blendMode?.getD "source-over",
               opacity := d.opacity?.getD 1,
               name := d.name?.getD ("image-" ++ toString i) },
             d.zIndex?.getD (i : ℤ)⟩
          let rest := deserializeImages a t (i + 1) idAndNext.2
          (entry :: rest.1, rest.2)

/-- `deserializeStateFromZip(file)`: a missing `project.json` throws
(aborting the whole load); otherwise the image entries are deserialised. -/
def deserializeStateFromZip (a : Archive) (nid : ℕ) :
    Except String (List SnapImg × ℕ) :=
  match a.projectJson with
  | none => .error "Invalid .montage file: missing project.json"
  | some imgs => .ok (deserializeImages a imgs 0 nid)

/-- `Math.min(...)` folded over a list of coordinates; the `Infinity`
start value is modelled by folding from the first element (an empty list
yields an unused placeholder). -/
def listMin : List ℚ → ℚ
  | [] => 0
  | x :: t => t.foldl min x

/-- `Math.max(...)` folded over a list of coordinates. -/
def listMax : List ℚ → ℚ
  | [] => 0
  | x :: t => t.foldl max x

/-- `maxCurrentZIndex`: the largest captured `zIndex`, or −1 for an empty
scene. -/
def maxZIndex (l : List SnapImg) : ℤ :=
  match l with
  | [] => -1
  | e :: t => t.foldl (fun acc x => max acc x.zIndex) e.zIndex

/-- The `loadedState.images.forEach` of `loadProject`: translate each
entry by the common viewport offset and always assign a brand-new id. -/
def assignNewIds : List SnapImg → ℚ → ℚ → ℕ → List SnapImg
  | [], _, _, _ => []
  | e :: t, offX, offY, nid =>
      ⟨{ e.img with x := e.img.x + offX, y := e.img.y + offY, id := nid }, e.zIndex⟩ ::
        assignNewIds t offX offY (nid + 1)

/-- The second `forEach`: `imgState.zIndex = maxCurrentZIndex + 1 + i`. -/
def assignZ : List SnapImg → ℤ → List SnapImg
  | [], _ => []
  | e :: t, z => ⟨e.img, z⟩ :: assignZ t (z + 1)

/-- `loadProject(file)`: deserialise (errors leave the session untouched
and surface an alert), re-centre the loaded entities on the viewport,
assign fresh ids, push one undo snapshot of the pre-merge scene, stack the
loaded entities above the current ones, and restore the merged state. -/
def loadProject (a : Archive) (s : EditorState) : EditorState :=
  match deserializeStateFromZip a s.nextId with
  | .error _ => s
  | .ok (entries, nid1) =>
      let xs := entries.map (fun e => e.img.x)
      let ys := entries.map (fun e => e.img.y)
      let offX := if entries.isEmpty then 0
        else (viewportCenter s).1 - (listMin xs + listMax xs) / 2
      let offY := if entries.isEmpty then 0
        else (viewportCenter s).2 - (listMin ys + listMax ys) / 2
      let entries2 := assignNewIds entries offX offY nid1
      let s1 := pushUndoS s
      let cur := captureState s1.scene
      let entries3 := assignZ entries2 (maxZIndex cur + 1)
      let merged := cur ++ entries3
      let s2 := restoreStateS merged s1
      { s2 with
        imageCount := s2.imageCount + entries.length
        nextId := nid1 + entries.length }

/-- An archive whose `project.json` references `1.png`, which is missing
from the `images/` folder (only `0.png` is present). -/
def archiveMissingImage : Archive :=
  { projectJson := some
      [⟨"0.png", none, 0, 0, 1, 1, 0, none, none, none, none, none, none, none⟩,
       ⟨"1.png", none, 10, 0, 1, 1, 0, none, none, none, none, none, none, none⟩],
    imageFiles := [("0.png", ⟨5, 40, 40⟩)] }

/-- A complete two-image archive, for the C9 witness. -/
def archiveTwo : Archive :=
  { projectJson := some
      [⟨"0.png", none, 0, 0, 1, 1, 0, none, none, none, none, none, none, none⟩,
       ⟨"1.png", none, 10, 0, 1, 1, 0, none, none, none, none, none, none, none⟩],
    imageFiles := [("0.png", ⟨5, 40, 40⟩), ("1.png", ⟨6, 40, 40⟩)] }

/-! ### Theorems -/

theorem jsRem_repr_nonneg (a m : ℚ) (ha : 0 ≤ a) (hm : 0 < m) :
    jsRem a m = m * Int.fract (a / m) := by
  have hq : 0 ≤ a / m := div_nonneg ha hm.le
  unfold jsRem jsTrunc
  rw [if_pos hq, Int.fract]
  field_simp

theorem jsRem_repr_neg (a m : ℚ) (ha : a < 0) (hm : 0 < m) :
    jsRem a m = -(m * Int.fract (-(a / m))) := by
  have hq : ¬ 0 ≤ a / m := not_le.mpr (div_neg_of_neg_of_pos ha hm)
  unfold jsRem jsTrunc
  rw [if_neg hq, Int.fract]
  push_cast
  field_simp
  ring

theorem jsRem_nonneg_lt (a m : ℚ) (ha : 0 ≤ a) (hm : 0 < m) :
    0 ≤ jsRem a m ∧ jsRem a m < m := by
  rw [jsRem_repr_nonneg a m ha hm]
  refine ⟨mul_nonneg hm.le (Int.fract_nonneg _), ?_⟩
  calc m * Int.fract (a / m) < m * 1 :=
        mul_lt_mul_of_pos_left (Int.fract_lt_one _) hm
    _ = m := mul_one m

theorem jsRem_neg_bounds (a m : ℚ) (ha : a < 0) (hm : 0 < m) :
    -m < jsRem a m ∧ jsRem a m ≤ 0 := by
  rw [jsRem_repr_neg a m ha hm]
  have hlt : m * Int.fract (-(a / m)) < m * 1 :=
    mul_lt_mul_of_pos_left (Int.fract_lt_one _) hm
  have hnn : 0 ≤ m * Int.fract (-(a / m)) :=
    mul_nonneg hm.le (Int.fract_nonneg _)
  constructor <;> linarith [mul_one m]

theorem qmod_repr (r m : ℚ) (hm : m ≠ 0) : qmod r m = m * Int.fract (r / m) := by
  unfold qmod
  rw [Int.fract]
  field_simp

theorem jsRem_eq_qmod_of_nonneg (r m : ℚ) (hr : 0 ≤ r) (hm : 0 < m) :
    jsRem r m = qmod r m := by
  rw [jsRem_repr_nonneg r m hr hm, qmod_repr r m hm.ne']

theorem qmod_of_jsRem_neg (r m : ℚ) (hr : r < 0) (hm : 0 < m)
    (hx : jsRem r m < 0) : qmod r m = jsRem r m + m := by
  have hrepr := jsRem_repr_neg r m hr hm
  have hfr : Int.fract (-(r / m)) ≠ 0 := by
    intro h0
    rw [hrepr, h0, mul_zero, neg_zero] at hx
    exact lt_irrefl 0 hx
  have hfr2 : Int.fract (r / m) = 1 - Int.fract (-(r / m)) := by
    have h := Int.fract_neg hfr
    rw [neg_neg] at h
    exact h
  rw [qmod_repr r m hm.ne', hfr2, hrepr]
  ring

theorem qmod_of_jsRem_zero (r m : ℚ) (hr : r < 0) (hm : 0 < m)
    (hx : jsRem r m = 0) : qmod r m = 0 := by
  have hrepr := jsRem_repr_neg r m hr hm
  have hz : Int.fract (-(r / m)) = 0 := by
    rw [hrepr, neg_eq_zero] at hx
    rcases mul_eq_zero.mp hx with h | h
    · exact absurd h hm.ne'
    · exact h
  have h2 : Int.fract (r / m) = 0 := Int.fract_neg_eq_zero.mp hz
  rw [qmod_repr r m hm.ne', h2, mul_zero]

theorem normalizeRot_bounds (r : ℚ) :
    0 ≤ normalizeRot r ∧ normalizeRot r < 360 := by
  have h360 : (0:ℚ) < 360 := by norm_num
  have hx : 0 ≤ jsRem r 360 + 360 := by
    rcases le_or_lt 0 r with h | h
    · have := (jsRem_nonneg_lt r 360 h h360).1
      linarith
    · have := (jsRem_neg_bounds r 360 h h360).1
      linarith
  unfold normalizeRot
  exact jsRem_nonneg_lt _ 360 hx h360

/-- The snapped rotation always lands on one of the four table keys. -/
theorem snapRot_mem (r : ℚ) :
    snapRot r = 0 ∨ snapRot r = 90 ∨ snapRot r = 180 ∨ snapRot r = 270 := by
  obtain ⟨h0, h1⟩ := normalizeRot_bounds r
  have hk0 : 0 ≤ jsRound (normalizeRot r / 90) := by
    unfold jsRound
    apply Int.le_floor.mpr
    push_cast
    have : (0:ℚ) ≤ normalizeRot r / 90 := by positivity
    linarith
  have hk4 : jsRound (normalizeRot r / 90) ≤ 4 := by
    unfold jsRound
    have hlt : normalizeRot r / 90 + 1/2 < (5:ℤ) := by
      push_cast
      have : normalizeRot r / 90 < 4 := by
        rw [div_lt_iff₀ (by norm_num : (0:ℚ) < 90)]
        linarith
      linarith
    have := Int.floor_lt.mpr hlt
    omega
  unfold snapRot
  set k := jsRound (normalizeRot r / 90) with hkdef
  interval_cases k <;> decide

theorem jsRem_small (a m : ℚ) (hm : 0 < m) (h0 : 0 ≤ a) (h1 : a < m) :
    jsRem a m = a := by
  unfold jsRem jsTrunc
  rw [if_pos (div_nonneg h0 hm.le)]
  have hfl : ⌊a / m⌋ = 0 :=
    Int.floor_eq_zero_iff.mpr
      (Set.mem_Ico.mpr ⟨div_nonneg h0 hm.le, by rwa [div_lt_one hm]⟩)
  rw [hfl]
  push_cast
  ring

theorem normalizeRot_small (r : ℚ) (h0 : 0 ≤ r) (h1 : r < 360) :
    normalizeRot r = r := by
  unfold normalizeRot
  rw [jsRem_small r 360 (by norm_num) h0 h1]
  unfold jsRem jsTrunc
  rw [if_pos (by positivity : (0:ℚ) ≤ (r + 360) / 360)]
  have hfl : ⌊(r + 360) / 360⌋ = 1 := by
    rw [Int.floor_eq_iff]
    constructor
    · rw [le_div_iff₀ (by norm_num : (0:ℚ) < 360)]
      push_cast
      linarith
    · rw [div_lt_iff₀ (by norm_num : (0:ℚ) < 360)]
      push_cast
      linarith
  rw [hfl]
  push_cast
  ring

theorem jsRound_eq (q : ℚ) (n : ℤ) (h0 : (n:ℚ) ≤ q + 1/2) (h1 : q + 1/2 < n + 1) :
    jsRound q = n := by
  unfold jsRound
  exact Int.floor_eq_iff.mpr ⟨h0, by linarith⟩

theorem snapRot_0 : snapRot 0 = 0 := by
  unfold snapRot
  rw [normalizeRot_small 0 (by norm_num) (by norm_num),
    jsRound_eq (0 / 90) 0 (by norm_num) (by norm_num)]
  decide

theorem snapRot_90 : snapRot 90 = 90 := by
  unfold snapRot
  rw [normalizeRot_small 90 (by norm_num) (by norm_num),
    jsRound_eq (90 / 90) 1 (by norm_num) (by norm_num)]
  decide

theorem snapRot_180 : snapRot 180 = 180 := by
  unfold snapRot
  rw [normalizeRot_small 180 (by norm_num) (by norm_num),
    jsRound_eq (180 / 90) 2 (by norm_num) (by norm_num)]
  decide

theorem snapRot_270 : snapRot 270 = 270 := by
  unfold snapRot
  rw [normalizeRot_small 270 (by norm_num) (by norm_num),
    jsRound_eq (270 / 90) 3 (by norm_num) (by norm_num)]
  decide

theorem rotMapAt_total (k : ℤ) (hk : k = 0 ∨ k = 90 ∨ k = 180 ∨ k = 270)
    (e : Edge) : ∃ e', rotMapAt k e = some e' := by
  rcases hk with h | h | h | h <;> subst h <;> cases e <;> exact ⟨_, rfl⟩

theorem bind_vis_rot (k : ℤ) (hk : k = 0 ∨ k = 90 ∨ k = 180 ∨ k = 270)
    (e : Edge) : (rotMapAt k e).bind (visMapAt k) = some e := by
  rcases hk with h | h | h | h <;> subst h <;> cases e <;> rfl

theorem bind_rot_vis (k : ℤ) (hk : k = 0 ∨ k = 90 ∨ k = 180 ∨ k = 270)
    (e : Edge) : (visMapAt k e).bind (rotMapAt k) = some e := by
  rcases hk with h | h | h | h <;> subst h <;> cases e <;> rfl

theorem flipEdge_flipEdge (sx sy : ℚ) (e : Edge) :
    flipEdge sx sy (flipEdge sx sy e) = e := by
  unfold flipEdge
  by_cases hx : sx < 0 <;> by_cases hy : sy < 0 <;>
    simp only [hx, hy, if_true, if_false, if_pos, if_neg, not_false_iff] <;>
    cases e <;> rfl

/-- C10: `getSourceEdge` is total on edge names: for every real rotation
value and every pair of scale signs, the normalisation
`((rotation % 360 + 360) % 360` rounded to the nearest multiple of 90, taken
mod 360) always yields a table key in {0, 90, 180, 270}, so the quadrant
lookup never misses and the result is always one of the four edge names. -/
theorem getSourceEdge_total (v : Edge) (r sx sy : ℚ) :
    ∃ e : Edge, getSourceEdge v r sx sy = some e := by
  obtain ⟨e', he⟩ := rotMapAt_total _ (snapRot_mem r) v
  exact ⟨flipEdge sx sy e', by rw [getSourceEdge, he]; rfl⟩

/-- C1: for every rotation snapped to one of {0, 90, 180, 270} and every
combination of scale signs, the visual-to-source edge map `getSourceEdge`
(quadrant table, then flip swaps) and the source-to-visual map used for
anchoring in `applyCropBounds` (flip swaps, then the inverse quadrant
table) are mutually inverse: composing them in either order is the identity
on the four edge names. -/
theorem sourceEdge_visualEdge_inverse (r sx sy : ℚ)
    (hr : r = 0 ∨ r = 90 ∨ r = 180 ∨ r = 270) :
    (∀ v : Edge,
      (getSourceEdge v r sx sy).bind (fun s => visualEdgeFor s r sx sy) = some v) ∧
    (∀ s : Edge,
      (visualEdgeFor s r sx sy).bind (fun v => getSourceEdge v r sx sy) = some s) := by
  have hsnap : snapRot r = 0 ∨ snapRot r = 90 ∨ snapRot r = 180 ∨ snapRot r = 270 := by
    rcases hr with h | h | h | h <;> subst h <;>
      simp [snapRot_0, snapRot_90, snapRot_180, snapRot_270]
  constructor
  · intro v
    obtain ⟨s0, hs0⟩ := rotMapAt_total _ hsnap v
    have hvr := bind_vis_rot _ hsnap v
    rw [hs0, Option.some_bind] at hvr
    simp only [getSourceEdge, visualEdgeFor, hs0, Option.map_some', Option.some_bind,
      flipEdge_flipEdge]
    exact hvr
  · intro s
    have hrv := bind_rot_vis _ hsnap (flipEdge sx sy s)
    simp only [visualEdgeFor]
    cases h : visMapAt (snapRot r) (flipEdge sx sy s) with
    | none =>
        rw [h] at hrv
        exact Option.noConfusion hrv
    | some v0 =>
        rw [h, Option.some_bind] at hrv
        rw [Option.some_bind]
        simp only [getSourceEdge, hrv, Option.map_some', flipEdge_flipEdge]

/-- Witness for C1 at rotation 90 with a vertical flip, on the top edge. -/
theorem sourceEdge_visualEdge_inverse_witness :
    (getSourceEdge Edge.top 90 1 (-1)).bind (fun s => visualEdgeFor s 90 1 (-1)) =
      some Edge.top :=
  (sourceEdge_visualEdge_inverse 90 1 (-1) (by norm_num)).1 Edge.top


theorem sideways_iff_qmod (r : ℚ) :
    isRotatedSideways r = true ↔ 45 < qmod r 180 ∧ qmod r 180 < 135 := by
  have h180 : (0:ℚ) < 180 := by norm_num
  simp only [isRotatedSideways, Bool.and_eq_true, decide_eq_true_eq]
  rcases le_or_lt 0 r with hr | hr
  · have heq : jsRem r 180 = qmod r 180 := jsRem_eq_qmod_of_nonneg r 180 hr h180
    have hnn : 0 ≤ jsRem r 180 := (jsRem_nonneg_lt r 180 hr h180).1
    rw [abs_of_nonneg hnn, heq]
  · rcases lt_or_eq_of_le (jsRem_neg_bounds r 180 hr h180).2 with hx | hx
    · have hq : qmod r 180 = jsRem r 180 + 180 := qmod_of_jsRem_neg r 180 hr h180 hx
      rw [abs_of_nonpos hx.le, hq]
      constructor
      · rintro ⟨a, b⟩
        exact ⟨by linarith, by linarith⟩
      · rintro ⟨a, b⟩
        exact ⟨by linarith, by linarith⟩
    · have hq : qmod r 180 = 0 := qmod_of_jsRem_zero r 180 hr h180 hx
      rw [hx, hq]
      norm_num

/-- C7: `flipHorizontal` negates `scaleY` and `flipVertical` negates
`scaleX` exactly when the rotation lies within (45°, 135°) mod 180
("sideways"); otherwise they negate `scaleX` / `scaleY` respectively; all
other fields are unchanged.  In particular rotations of exactly 90° and
−90° are sideways, so there `flipHorizontal` negates the vertical scale
axis. -/
theorem flip_sideways_spec :
    (∀ r : ℚ, isRotatedSideways r = true ↔ 45 < qmod r 180 ∧ qmod r 180 < 135) ∧
    (∀ n : Img,
      (isRotatedSideways n.rotation = true →
        flipHorizontalImg n = { n with scaleY := n.scaleY * -1 } ∧
        flipVerticalImg n = { n with scaleX := n.scaleX * -1 }) ∧
      (isRotatedSideways n.rotation = false →
        flipHorizontalImg n = { n with scaleX := n.scaleX * -1 } ∧
        flipVerticalImg n = { n with scaleY := n.scaleY * -1 })) ∧
    isRotatedSideways 90 = true ∧ isRotatedSideways (-90) = true := by
  have h90 : jsRem (90 : ℚ) 180 = 90 := jsRem_small 90 180 (by norm_num) (by norm_num) (by norm_num)
  have hm90 : jsRem (-90 : ℚ) 180 = -90 := by
    unfold jsRem jsTrunc
    rw [if_neg (by norm_num : ¬ (0:ℚ) ≤ -90 / 180)]
    have h1 : -(((-90):ℚ) / 180) = 1/2 := by norm_num
    have h2 : ⌊(1:ℚ)/2⌋ = 0 :=
      Int.floor_eq_zero_iff.mpr (Set.mem_Ico.mpr ⟨by norm_num, by norm_num⟩)
    rw [h1, h2]
    norm_num
  refine ⟨sideways_iff_qmod, fun n => ⟨fun hs => ?_, fun hs => ?_⟩, ?_, ?_⟩
  · constructor <;> simp [flipHorizontalImg, flipVerticalImg, hs]
  · constructor <;> simp [flipHorizontalImg, flipVerticalImg, hs]
  · simp only [isRotatedSideways, h90, Bool.and_eq_true, decide_eq_true_eq]
    rw [abs_of_nonneg (by norm_num : (0:ℚ) ≤ 90)]
    norm_num
  · simp only [isRotatedSideways, hm90, Bool.and_eq_true, decide_eq_true_eq]
    rw [abs_of_nonpos (by norm_num : (-90:ℚ) ≤ 0)]
    norm_num


/-- Witness for C7 at a node rotated to exactly 90°. -/
theorem flip_sideways_spec_witness :
    flipHorizontalImg imgRot90 = { imgRot90 with scaleY := imgRot90.scaleY * -1 } :=
  ((flip_sideways_spec.2.1 imgRot90).1
    (show isRotatedSideways imgRot90.rotation = true from flip_sideways_spec.2.2.1)).1

/-! ### Crop invariant (C3, C5) -/

theorem clamp_nonneg (A v : ℚ) : 0 ≤ max 0 (min A v) :=
  le_max_left 0 _

theorem clamp_le (A v : ℚ) (hA : 0 ≤ A) : max 0 (min A v) ≤ A :=
  max_le hA (min_le_left A v)

/-- `applyCropBounds` never touches the original dimensions and either
stores exactly the requested crop bounds or (behind a guard) leaves the
old ones. -/
theorem applyCropBounds_fields (n : Img) (cb : CropBounds) (e : Option Edge) (c s : ℚ) :
    (applyCropBounds n cb e c s).originalWidth = n.originalWidth ∧
    (applyCropBounds n cb e c s).originalHeight = n.originalHeight ∧
    ((applyCropBounds n cb e c s).cropBounds = cb ∨
      (applyCropBounds n cb e c s).cropBounds = n.cropBounds) := by
  by_cases h1 : n.originalWidth = 0 ∨ n.originalHeight = 0
  · simp only [applyCropBounds]
    rw [if_pos h1]
    exact ⟨rfl, rfl, Or.inr rfl⟩
  · by_cases h2 : n.originalWidth - cb.left - cb.right ≤ 0 ∨
        n.originalHeight - cb.top - cb.bottom ≤ 0
    · simp only [applyCropBounds]
      rw [if_neg h1, if_pos h2]
      exact ⟨rfl, rfl, Or.inr rfl⟩
    · cases e with
      | none =>
          simp only [applyCropBounds]
          rw [if_neg h1, if_neg h2]
          exact ⟨rfl, rfl, Or.inl rfl⟩
      | some e' =>
          simp only [applyCropBounds]
          rw [if_neg h1, if_neg h2]
          cases hv : visMapAt (snapRot n.rotation) (flipEdge n.scaleX n.scaleY (oppositeEdge e')) with
          | none => exact ⟨rfl, rfl, Or.inl rfl⟩
          | some va => exact ⟨rfl, rfl, Or.inl rfl⟩

theorem clampNewCrop_inv (e : Option Edge) (cur : CropBounds) (ow oh d : ℚ)
    (hinv : cropInv cur ow oh) :
    cropInv (clampNewCrop e cur ow oh d) ow oh := by
  obtain ⟨h1, h2, h3, h4, h5, h6⟩ := hinv
  rcases e with _ | e'
  · exact ⟨h1, h2, h3, h4, h5, h6⟩
  cases e' with
  | top =>
      refine ⟨clamp_nonneg _ _, h2, h3, h4, ?_, h6⟩
      have := clamp_le (oh - cur.bottom - 20) (cur.top + d) (by linarith)
      simpa [clampNewCrop] using by linarith
  | bottom =>
      refine ⟨h1, h2, clamp_nonneg _ _, h4, ?_, h6⟩
      have := clamp_le (oh - cur.top - 20) (cur.bottom + d) (by linarith)
      simpa [clampNewCrop] using by linarith
  | left =>
      refine ⟨h1, h2, h3, clamp_nonneg _ _, h5, ?_⟩
      have := clamp_le (ow - cur.right - 20) (cur.left + d) (by linarith)
      simpa [clampNewCrop] using by linarith
  | right =>
      refine ⟨h1, clamp_nonneg _ _, h3, h4, h5, ?_⟩
      have := clamp_le (ow - cur.left - 20) (cur.right + d) (by linarith)
      simpa [clampNewCrop] using by linarith

theorem applyCropBounds_inv (n : Img) (cb : CropBounds) (e : Option Edge) (c s : ℚ)
    (hcb : cropInv cb n.originalWidth n.originalHeight)
    (hn : cropInv n.cropBounds n.originalWidth n.originalHeight) :
    cropInv (applyCropBounds n cb e c s).cropBounds
      (applyCropBounds n cb e c s).originalWidth
      (applyCropBounds n cb e c s).originalHeight := by
  obtain ⟨hw, hh, hcrop⟩ := applyCropBounds_fields n cb e c s
  rw [hw, hh]
  rcases hcrop with h | h <;> rw [h]
  · exact hcb
  · exact hn

theorem updateCropFromHandle_inv (n : Img) (pos : Edge) (hx hy hw hh c s : ℚ)
    (hinv : cropInv n.cropBounds n.originalWidth n.originalHeight) :
    cropInv (updateCropFromHandle n pos hx hy hw hh c s).cropBounds
      (updateCropFromHandle n pos hx hy hw hh c s).originalWidth
      (updateCropFromHandle n pos hx hy hw hh c s).originalHeight := by
  unfold updateCropFromHandle
  split
  · exact hinv
  · exact applyCropBounds_inv n _ _ c s (clampNewCrop_inv _ _ _ _ _ hinv) hinv

/-- C3: starting from crop bounds that satisfy the invariant, after every
crop-handle update each component of `cropBounds` stays non-negative,
`top + bottom ≤ sourceHeight − 20` and `left + right ≤ sourceWidth − 20`:
each new bound is clamped to `[0, sourceDimension − oppositeBound − 20]`. -/
theorem crop_sequence_invariant (n : Img)
    (hinv : cropInv n.cropBounds n.originalWidth n.originalHeight)
    (steps : List CropStep) :
    cropInv (applyCropSteps steps n).cropBounds
      (applyCropSteps steps n).originalWidth
      (applyCropSteps steps n).originalHeight := by
  induction steps generalizing n with
  | nil => exact hinv
  | cons st t ih =>
      exact ih _ (updateCropFromHandle_inv n st.pos st.hx st.hy st.hw st.hh st.c st.s hinv)

/-- Witness for C3: one concrete top-handle drag on a fresh 100×100 node. -/
theorem crop_sequence_invariant_witness :
    cropInv (applyCropSteps [⟨Edge.top, 0, 24, 24, 12, 1, 0⟩] imgPlain).cropBounds
      (applyCropSteps [⟨Edge.top, 0, 24, 24, 12, 1, 0⟩] imgPlain).originalWidth
      (applyCropSteps [⟨Edge.top, 0, 24, 24, 12, 1, 0⟩] imgPlain).originalHeight :=
  crop_sequence_invariant imgPlain
    (by refine ⟨?_, ?_, ?_, ?_, ?_, ?_⟩ <;> norm_num [imgPlain, cropInv])
    [⟨Edge.top, 0, 24, 24, 12, 1, 0⟩]

/-! ### Anchor preservation at rotation 0 (C4) -/

theorem flipEdge_pos (sx sy : ℚ) (e : Edge) (hx : ¬ sx < 0) (hy : ¬ sy < 0) :
    flipEdge sx sy e = e := by
  simp [flipEdge, hx, hy]

theorem visMapAt_zero (e : Edge) : visMapAt 0 e = some e := rfl

theorem min4_pair (a b c d v₁ v₂ : ℚ) (ha : a = v₁) (hb : b = v₂) (hc : c = v₁)
    (hd : d = v₂) (h : v₁ ≤ v₂) : min (min a b) (min c d) = v₁ := by
  subst ha hb hc hd
  rw [min_eq_left h, min_self]

theorem max4_pair (a b c d v₁ v₂ : ℚ) (ha : a = v₁) (hb : b = v₂) (hc : c = v₁)
    (hd : d = v₂) (h : v₁ ≤ v₂) : max (max a b) (max c d) = v₂ := by
  subst ha hb hc hd
  rw [max_eq_right h, max_self]

theorem min4_pair' (a b c d v₁ v₂ : ℚ) (ha : a = v₁) (hb : b = v₁) (hc : c = v₂)
    (hd : d = v₂) (h : v₁ ≤ v₂) : min (min a b) (min c d) = v₁ := by
  subst ha hb hc hd
  rw [min_self, min_self, min_eq_left h]

theorem max4_pair' (a b c d v₁ v₂ : ℚ) (ha : a = v₁) (hb : b = v₁) (hc : c = v₂)
    (hd : d = v₂) (h : v₁ ≤ v₂) : max (max a b) (max c d) = v₂ := by
  subst ha hb hc hd
  rw [max_self, max_self, max_eq_right h]

/-- Closed form of the client rectangle at rotation 0 (cosine 1, sine 0)
with positive scales and a positive cropped size: the axis-aligned box
centred on `(x, y)` with dimensions `scale * croppedSize`. -/
theorem clientRect_rot0 (m : Img) (hsx : 0 < m.scaleX) (hsy : 0 < m.scaleY)
    (hw : 0 < cropW m) (hh : 0 < cropH m) :
    clientRect m 1 0 =
      ⟨m.x - m.scaleX * cropW m / 2, m.y - m.scaleY * cropH m / 2,
        m.scaleX * cropW m, m.scaleY * cropH m⟩ := by
  have hxw : 0 ≤ m.scaleX * cropW m := le_of_lt (mul_pos hsx hw)
  have hyh : 0 ≤ m.scaleY * cropH m := le_of_lt (mul_pos hsy hh)
  simp only [clientRect, Rect.mk.injEq]
  refine ⟨?_, ?_, ?_, ?_⟩
  · exact min4_pair _ _ _ _ (m.x - m.scaleX * cropW m / 2) (m.x + m.scaleX * cropW m / 2)
      (by ring) (by ring) (by ring) (by ring) (by linarith)
  · exact min4_pair' _ _ _ _ (m.y - m.scaleY * cropH m / 2) (m.y + m.scaleY * cropH m / 2)
      (by ring) (by ring) (by ring) (by ring) (by linarith)
  · rw [max4_pair _ _ _ _ (m.x - m.scaleX * cropW m / 2) (m.x + m.scaleX * cropW m / 2)
        (by ring) (by ring) (by ring) (by ring) (by linarith),
      min4_pair _ _ _ _ (m.x - m.scaleX * cropW m / 2) (m.x + m.scaleX * cropW m / 2)
        (by ring) (by ring) (by ring) (by ring) (by linarith)]
    ring
  · rw [max4_pair' _ _ _ _ (m.y - m.scaleY * cropH m / 2) (m.y + m.scaleY * cropH m / 2)
        (by ring) (by ring) (by ring) (by ring) (by linarith),
      min4_pair' _ _ _ _ (m.y - m.scaleY * cropH m / 2) (m.y + m.scaleY * cropH m / 2)
        (by ring) (by ring) (by ring) (by ring) (by linarith)]
    ring

/-- The main (guard-free) branch of `applyCropBounds` as one equation. -/
theorem applyCropBounds_main (n : Img) (cb : CropBounds) (e : Edge) (c s : ℚ) (va : Edge)
    (h1 : ¬(n.originalWidth = 0 ∨ n.originalHeight = 0))
    (h2 : ¬(n.originalWidth - cb.left - cb.right ≤ 0 ∨
        n.originalHeight - cb.top - cb.bottom ≤ 0))
    (hva : visMapAt (snapRot n.rotation) (flipEdge n.scaleX n.scaleY (oppositeEdge e)) =
        some va) :
    applyCropBounds n cb (some e) c s =
      { n with
        cropBounds := cb
        x := n.x +
          (anchorDelta va (clientRect n c s) (clientRect { n with cropBounds := cb } c s)).1
        y := n.y +
          (anchorDelta va (clientRect n c s) (clientRect { n with cropBounds := cb } c s)).2 } := by
  simp only [applyCropBounds]
  rw [if_neg h1, if_neg h2, hva]

/-- `applyCropBounds` stores exactly the requested bounds when the guards
pass. -/
theorem applyCropBounds_stores (n : Img) (cb : CropBounds) (e : Edge) (c s : ℚ)
    (h1 : ¬(n.originalWidth = 0 ∨ n.originalHeight = 0))
    (h2 : ¬(n.originalWidth - cb.left - cb.right ≤ 0 ∨
        n.originalHeight - cb.top - cb.bottom ≤ 0)) :
    (applyCropBounds n cb (some e) c s).cropBounds = cb := by
  simp only [applyCropBounds]
  rw [if_neg h1, if_neg h2]
  cases hv : visMapAt (snapRot n.rotation) (flipEdge n.scaleX n.scaleY (oppositeEdge e)) with
  | none => rfl
  | some va => rfl

/-- C4: at rotation 0 with positive scales, a crop update that adjusts a
single edge leaves the on-screen (client-rect) coordinates of the other
three edges of the entity's bounding rectangle unchanged: the anchor
correction adds back exactly the shift of the anchored edge and the
perpendicular axis is untouched. -/
theorem crop_anchor_rot0 (n : Img) (cb : CropBounds) (e : Edge)
    (hrot : n.rotation = 0) (hsx : 0 < n.scaleX) (hsy : 0 < n.scaleY)
    (hw : 0 < cropW n) (hh : 0 < cropH n)
    (hagree : agreesOffEdge n.cropBounds cb e) :
    ∀ e' : Edge, e' ≠ e →
      edgeCoord (clientRect (applyCropBounds n cb (some e) 1 0) 1 0) e' =
      edgeCoord (clientRect n 1 0) e' := by
  intro e' hne
  by_cases h1 : n.originalWidth = 0 ∨ n.originalHeight = 0
  · simp only [applyCropBounds]
    rw [if_pos h1]
  · by_cases h2 : n.originalWidth - cb.left - cb.right ≤ 0 ∨
        n.originalHeight - cb.top - cb.bottom ≤ 0
    · simp only [applyCropBounds]
      rw [if_neg h1, if_pos h2]
    · have h2' := h2
      push_neg at h2'
      obtain ⟨hcw, hch⟩ := h2'
      have hwn : (0:ℚ) < n.originalWidth - n.cropBounds.left - n.cropBounds.right := by
        simpa [cropW] using hw
      have hhn : (0:ℚ) < n.originalHeight - n.cropBounds.top - n.cropBounds.bottom := by
        simpa [cropH] using hh
      have hva : visMapAt (snapRot n.rotation)
          (flipEdge n.scaleX n.scaleY (oppositeEdge e)) = some (oppositeEdge e) := by
        rw [hrot, snapRot_0, flipEdge_pos _ _ _ (not_lt.mpr hsx.le) (not_lt.mpr hsy.le),
          visMapAt_zero]
      rw [applyCropBounds_main n cb e 1 0 (oppositeEdge e) h1 h2 hva]
      cases e <;> obtain ⟨ha1, ha2, ha3⟩ := hagree <;> cases e' <;>
        first
          | exact absurd rfl hne
          | (simp only [oppositeEdge, anchorDelta, clientRect_rot0, hsx, hsy,
              hwn, hhn, hcw, hch, cropW, cropH, edgeCoord]
             simp only [← ha1, ← ha2, ← ha3]
             ring)

/-- Witness for C4: crop 10 px off the left of a fresh 100×100 node; the
right edge keeps its screen position. -/
theorem crop_anchor_rot0_witness :
    edgeCoord (clientRect (applyCropBounds imgPlain ⟨0, 0, 0, 10⟩ (some Edge.left) 1 0) 1 0)
        Edge.right =
      edgeCoord (clientRect imgPlain 1 0) Edge.right :=
  crop_anchor_rot0 imgPlain ⟨0, 0, 0, 10⟩ Edge.left (by norm_num [imgPlain])
    (by norm_num [imgPlain]) (by norm_num [imgPlain])
    (by norm_num [imgPlain, cropW]) (by norm_num [imgPlain, cropH])
    (by exact ⟨rfl, rfl, rfl⟩) Edge.right (by simp)

/-! ### The crop bound can reach the minimum-size limit exactly (C5) -/

theorem getSourceEdge_top_id : getSourceEdge Edge.top 0 1 1 = some Edge.top := by
  rw [getSourceEdge, snapRot_0]
  show some (flipEdge 1 1 Edge.top) = some Edge.top
  rw [flipEdge_pos 1 1 Edge.top (by norm_num) (by norm_num)]

theorem clientRect_imgPlain : clientRect imgPlain 1 0 = ⟨-50, -50, 100, 100⟩ := by
  rw [clientRect_rot0 imgPlain (by norm_num [imgPlain]) (by norm_num [imgPlain])
    (by norm_num [cropW, imgPlain]) (by norm_num [cropH, imgPlain])]
  simp only [Rect.mk.injEq, imgPlain, cropW, cropH]
  norm_num

theorem updateCrop_imgPlain_top :
    updateCropFromHandle imgPlain Edge.top 0 24 24 12 1 0 =
      applyCropBounds imgPlain ⟨80, 0, 0, 0⟩ (some Edge.top) 1 0 := by
  simp only [updateCropFromHandle]
  rw [if_neg (by norm_num [imgPlain])]
  rw [show getSourceEdge Edge.top imgPlain.rotation imgPlain.scaleX imgPlain.scaleY =
      some Edge.top from getSourceEdge_top_id, clientRect_imgPlain]
  congr 1
  simp only [clampNewCrop, imgPlain, CropBounds.mk.injEq]
  norm_num [min_def, max_def]

/-- C5 counterexample: a single crop-handle drag on a fresh 100×100 image
drives `cropBounds.top + cropBounds.bottom` exactly to
`sourceHeight − 20` — the strict inequality
`top + bottom < sourceHeight − minCropSize` does not hold after every
operation; the clamp `Math.min(sourceDimension - oppositeBound - minSize, …)`
admits equality. -/
theorem crop_strict_counterexample :
    ¬ ((updateCropFromHandle imgPlain Edge.top 0 24 24 12 1 0).cropBounds.top +
        (updateCropFromHandle imgPlain Edge.top 0 24 24 12 1 0).cropBounds.bottom <
        (updateCropFromHandle imgPlain Edge.top 0 24 24 12 1 0).originalHeight - 20) := by
  obtain ⟨hW, hH, -⟩ :=
    applyCropBounds_fields imgPlain ⟨80, 0, 0, 0⟩ (some Edge.top) 1 0
  rw [updateCrop_imgPlain_top,
    applyCropBounds_stores imgPlain ⟨80, 0, 0, 0⟩ Edge.top 1 0
      (by norm_num [imgPlain]) (by norm_num [imgPlain]), hH]
  norm_num [imgPlain]

/-! ### Undo stack bound (C6) -/

theorem dropToMax_le (l : List (List SnapImg)) :
    (dropToMax l).length ≤ maxUndoLevels := by
  unfold dropToMax
  split
  · rw [List.length_drop]
    omega
  · omega

theorem applySel_stacks (op : Op) (n : Img) (t : EditorState) :
    (applySel op n t).undoStack = t.undoStack ∧ (applySel op n t).redoStack = t.redoStack := by
  cases op <;> exact ⟨rfl, rfl⟩

theorem applyOp_stacks (op : Op) (s : EditorState) :
    ((applyOp op s).undoStack = s.undoStack ∧ (applyOp op s).redoStack = s.redoStack) ∨
    ((applyOp op s).undoStack = dropToMax (s.undoStack ++ [captureState s.scene]) ∧
      (applyOp op s).redoStack = []) := by
  cases op <;>
    first
      | exact Or.inr ⟨rfl, rfl⟩
      | (cases hsel : getSelectedImage s with
          | none => simp [applyOp, hsel]
          | some n =>
              simp only [applyOp, hsel]
              rcases applySel_stacks _ n (pushUndoS s) with ⟨h1, h2⟩
              rw [h1, h2]
              exact Or.inr ⟨rfl, rfl⟩)

theorem undoRedo_sum_invariant (s : EditorState) (a : Action)
    (h : s.undoStack.length + s.redoStack.length ≤ maxUndoLevels) :
    (applyAction s a).undoStack.length + (applyAction s a).redoStack.length ≤
      maxUndoLevels := by
  cases a with
  | edit op =>
      show (applyOp op s).undoStack.length + (applyOp op s).redoStack.length ≤ _
      rcases applyOp_stacks op s with ⟨h1, h2⟩ | ⟨h1, h2⟩ <;> rw [h1, h2]
      · exact h
      · have := dropToMax_le (s.undoStack ++ [captureState s.scene])
        simpa using this
  | undo =>
      show (undoS s).undoStack.length + (undoS s).redoStack.length ≤ _
      unfold undoS
      cases hl : s.undoStack.getLast? with
      | none => exact h
      | some prev =>
          have hne : s.undoStack ≠ [] := by
            intro h0
            rw [h0] at hl
            exact Option.noConfusion hl
          have hpos : 0 < s.undoStack.length := List.length_pos.mpr hne
          show (s.undoStack.dropLast).length + (s.redoStack ++ [captureState s.scene]).length ≤ _
          rw [List.length_dropLast, List.length_append]
          simp only [List.length_singleton]
          omega
  | redo =>
      show (redoS s).undoStack.length + (redoS s).redoStack.length ≤ _
      unfold redoS
      cases hl : s.redoStack.getLast? with
      | none => exact h
      | some nxt =>
          have hne : s.redoStack ≠ [] := by
            intro h0
            rw [h0] at hl
            exact Option.noConfusion hl
          have hpos : 0 < s.redoStack.length := List.length_pos.mpr hne
          show (s.undoStack ++ [captureState s.scene]).length + (s.redoStack.dropLast).length ≤ _
          rw [List.length_dropLast, List.length_append]
          simp only [List.length_singleton]
          omega

theorem runActions_sum_invariant (acts : List Action) (s : EditorState)
    (h : s.undoStack.length + s.redoStack.length ≤ maxUndoLevels) :
    (runActions acts s).undoStack.length + (runActions acts s).redoStack.length ≤
      maxUndoLevels := by
  induction acts generalizing s with
  | nil => exact h
  | cons a t ih => exact ih (applyAction s a) (undoRedo_sum_invariant s a h)

/-- C6: under every sequence of mutating operations, undos and redos from a
fresh session, the undo stack never holds more than 30 snapshots; and a
push onto a full (30-entry) stack discards the oldest entry first. -/
theorem undo_stack_bounded :
    (∀ (acts : List Action) (w h : ℚ),
      (runActions acts (initState w h)).undoStack.length ≤ maxUndoLevels) ∧
    (∀ s : EditorState, s.undoStack.length = maxUndoLevels →
      (pushUndoS s).undoStack = s.undoStack.tail ++ [captureState s.scene]) := by
  constructor
  · intro acts w h
    have := runActions_sum_invariant acts (initState w h) (by simp [initState])
    omega
  · intro s hlen
    show dropToMax (s.undoStack ++ [captureState s.scene]) = _
    unfold dropToMax
    rw [if_pos (by simp [hlen, maxUndoLevels])]
    rw [List.length_append, hlen]
    simp only [List.length_singleton, maxUndoLevels]
    rw [show 30 + 1 - 30 = 1 by omega,
      List.drop_append_of_le_length (by rw [hlen]; simp [maxUndoLevels]),
      List.drop_one]

/-- Witness for C6 at a concrete 30-entry stack. -/
theorem undo_stack_bounded_witness :
    (pushUndoS stateFull).undoStack =
      stateFull.undoStack.tail ++ [captureState stateFull.scene] :=
  undo_stack_bounded.2 stateFull (by simp [stateFull, stateOne, maxUndoLevels])

/-! ### Snapshot round-trip (C2) -/

theorem sortZ_sorted_id (l : List SnapImg)
    (h : List.Chain' (fun a b : SnapImg => a.zIndex < b.zIndex) l) : sortZ l = l := by
  induction l with
  | nil => rfl
  | cons a t ih =>
      rw [sortZ, ih h.tail]
      cases t with
      | nil => rfl
      | cons b t' =>
          have hab : a.zIndex < b.zIndex := (List.chain'_cons.mp h).1
          simp only [insertZ]
          rw [if_pos hab]

theorem captureAux_mem_ge (k : ℤ) (l : List Img) :
    ∀ x ∈ captureAux k l, k ≤ x.zIndex := by
  induction l generalizing k with
  | nil => simp [captureAux]
  | cons im t ih =>
      intro x hx
      simp only [captureAux, List.mem_cons] at hx
      rcases hx with rfl | hx
      · exact le_refl k
      · have := ih (k + 1) x hx
        omega

theorem captureAux_chain (k : ℤ) (l : List Img) :
    List.Chain' (fun a b : SnapImg => a.zIndex < b.zIndex) (captureAux k l) := by
  induction l generalizing k with
  | nil => exact List.chain'_nil
  | cons im t ih =>
      rw [captureAux]
      apply List.chain'_cons'.mpr
      refine ⟨?_, ih (k + 1)⟩
      intro y hy
      have hmem : y ∈ captureAux (k + 1) t := by
        cases hcap : captureAux (k + 1) t with
        | nil => rw [hcap] at hy; exact absurd hy (by simp)
        | cons z t2 =>
            rw [hcap] at hy
            simp only [List.head?_cons, Option.mem_def, Option.some.injEq] at hy
            subst hy
            exact List.mem_cons_self _ _
      have hge := captureAux_mem_ge (k + 1) t y hmem
      show k < y.zIndex
      omega

theorem map_img_captureAux (k : ℤ) (l : List Img)
    (hb : ∀ im ∈ l, im.blendMode ≠ "") :
    (captureAux k l).map SnapImg.img = l := by
  induction l generalizing k with
  | nil => rfl
  | cons im t ih =>
      rw [captureAux, List.map_cons, ih (k + 1) (fun x hx => hb x (List.mem_cons_of_mem im hx))]
      have : normBlend im = im := by
        unfold normBlend
        rw [if_neg (hb im (List.mem_cons_self im t))]
      rw [show (⟨normBlend im, k⟩ : SnapImg).img = normBlend im from rfl, this]

/-- Rebuilding a captured scene restores it image-for-image (the blend
mode is never the empty string in a live scene, so the `|| 'source-over'`
default is inert). -/
theorem restore_capture (l : List Img) (hb : ∀ im ∈ l, im.blendMode ≠ "") :
    restoreScene (captureState l) = l := by
  unfold restoreScene captureState
  rw [sortZ_sorted_id _ (captureAux_chain 0 l)]
  exact map_img_captureAux 0 l hb

theorem restoreStateS_scene (entries : List SnapImg) (s : EditorState) :
    (restoreStateS entries s).scene = restoreScene entries := rfl

theorem restoreStateS_redoStack (entries : List SnapImg) (s : EditorState) :
    (restoreStateS entries s).redoStack = s.redoStack := rfl

theorem undoS_eq (s : EditorState) (prev : List SnapImg)
    (h : s.undoStack.getLast? = some prev) :
    undoS s = restoreStateS prev
      { s with
        undoStack := s.undoStack.dropLast
        redoStack := s.redoStack ++ [captureState s.scene] } := by
  unfold undoS
  rw [h]

theorem redoS_eq (s : EditorState) (nxt : List SnapImg)
    (h : s.redoStack.getLast? = some nxt) :
    redoS s = restoreStateS nxt
      { s with
        redoStack := s.redoStack.dropLast
        undoStack := s.undoStack ++ [captureState s.scene] } := by
  unfold redoS
  rw [h]

theorem dropToMax_getLast (l : List (List SnapImg)) (a : List SnapImg) :
    (dropToMax (l ++ [a])).getLast? = some a := by
  unfold dropToMax
  split
  · rename_i hlen
    have h30 : maxUndoLevels = 30 := rfl
    rw [List.length_append, List.length_singleton] at hlen
    rw [List.length_append, List.length_singleton,
      List.drop_append_of_le_length (by omega), List.getLast?_concat]
  · rw [List.getLast?_concat]

/-- The core of C2: after any mutation preceded by a `pushUndo()`, `undo()`
rebuilds exactly the pre-mutation scene and `redo()` rebuilds exactly the
post-mutation scene. -/
theorem undo_redo_core (s s1 : EditorState)
    (hu : s1.undoStack = dropToMax (s.undoStack ++ [captureState s.scene]))
    (_hr : s1.redoStack = [])
    (hb : ∀ im ∈ s.scene, im.blendMode ≠ "")
    (hb1 : ∀ im ∈ s1.scene, im.blendMode ≠ "") :
    (undoS s1).scene = s.scene ∧ (redoS (undoS s1)).scene = s1.scene := by
  have hlast : s1.undoStack.getLast? = some (captureState s.scene) := by
    rw [hu]
    exact dropToMax_getLast _ _
  rw [undoS_eq s1 _ hlast]
  constructor
  · rw [restoreStateS_scene]
    exact restore_capture s.scene hb
  · have hred : (restoreStateS (captureState s.scene)
        { s1 with
          undoStack := s1.undoStack.dropLast
          redoStack := s1.redoStack ++ [captureState s1.scene] }).redoStack.getLast? =
        some (captureState s1.scene) := by
      rw [restoreStateS_redoStack]
      show (s1.redoStack ++ [captureState s1.scene]).getLast? = _
      rw [List.getLast?_concat]
    rw [redoS_eq _ _ hred, restoreStateS_scene]
    exact restore_capture s1.scene hb1

theorem replaceFirstById_pred (P : Img → Prop) (l : List Img) (i : ℕ) (f : Img → Img)
    (hb : ∀ im ∈ l, P im) (hf : ∀ im ∈ l, P (f im)) :
    ∀ im ∈ replaceFirstById l i f, P im := by
  induction l with
  | nil => simp [replaceFirstById]
  | cons a t ih =>
      intro im him
      simp only [replaceFirstById] at him
      by_cases ha : a.id = i
      · rw [if_pos ha] at him
        rcases List.mem_cons.mp him with rfl | hmem
        · exact hf a (List.mem_cons_self a t)
        · exact hb im (List.mem_cons_of_mem a hmem)
      · rw [if_neg ha] at him
        rcases List.mem_cons.mp him with rfl | hmem
        · exact hb im (List.mem_cons_self im t)
        · exact ih (fun x hx => hb x (List.mem_cons_of_mem a hx))
            (fun x hx => hf x (List.mem_cons_of_mem a hx)) im hmem

theorem removeFirstById_subset (l : List Img) (i : ℕ) :
    ∀ im ∈ removeFirstById l i, im ∈ l := by
  induction l with
  | nil => simp [removeFirstById]
  | cons a t ih =>
      intro im him
      simp only [removeFirstById] at him
      by_cases ha : a.id = i
      · rw [if_pos ha] at him
        exact List.mem_cons_of_mem a him
      · rw [if_neg ha] at him
        rcases List.mem_cons.mp him with rfl | hmem
        · exact List.mem_cons_self im t
        · exact List.mem_cons_of_mem a (ih im hmem)

theorem moveToTopById_subset (l : List Img) (i : ℕ) :
    ∀ im ∈ moveToTopById l i, im ∈ l := by
  intro im him
  unfold moveToTopById at him
  cases hf : l.find? (fun x => x.id == i) with
  | none => rw [hf] at him; exact him
  | some n =>
      rw [hf] at him
      rcases List.mem_append.mp him with hmem | hmem
      · exact removeFirstById_subset l i im hmem
      · rw [List.mem_singleton.mp hmem]
        exact List.mem_of_find?_eq_some hf

theorem moveToBottomById_subset (l : List Img) (i : ℕ) :
    ∀ im ∈ moveToBottomById l i, im ∈ l := by
  intro im him
  unfold moveToBottomById at him
  cases hf : l.find? (fun x => x.id == i) with
  | none => rw [hf] at him; exact him
  | some n =>
      rw [hf] at him
      rcases List.mem_cons.mp him with rfl | hmem
      · exact List.mem_of_find?_eq_some hf
      · exact removeFirstById_subset l i im hmem

theorem getSelectedImage_mem (s : EditorState) (n : Img)
    (h : getSelectedImage s = some n) : n ∈ s.scene := by
  unfold getSelectedImage at h
  cases hsel : s.selection with
  | none => rw [hsel] at h; exact Option.noConfusion h
  | some i =>
      rw [hsel, Option.some_bind] at h
      exact List.mem_of_find?_eq_some h

theorem applyCropBounds_blend (n : Img) (cb : CropBounds) (e : Option Edge) (c s : ℚ) :
    (applyCropBounds n cb e c s).blendMode = n.blendMode := by
  by_cases h1 : n.originalWidth = 0 ∨ n.originalHeight = 0
  · simp only [applyCropBounds]
    rw [if_pos h1]
  · by_cases h2 : n.originalWidth - cb.left - cb.right ≤ 0 ∨
        n.originalHeight - cb.top - cb.bottom ≤ 0
    · simp only [applyCropBounds]
      rw [if_neg h1, if_pos h2]
    · cases e with
      | none =>
          simp only [applyCropBounds]
          rw [if_neg h1, if_neg h2]
      | some e' =>
          simp only [applyCropBounds]
          rw [if_neg h1, if_neg h2]
          cases hv : visMapAt (snapRot n.rotation)
              (flipEdge n.scaleX n.scaleY (oppositeEdge e')) with
          | none => rfl
          | some va => rfl

theorem updateCropFromHandle_blend (n : Img) (pos : Edge) (hx hy hw hh c s : ℚ) :
    (updateCropFromHandle n pos hx hy hw hh c s).blendMode = n.blendMode := by
  by_cases h : n.originalWidth = 0
  · simp only [updateCropFromHandle]
    rw [if_pos h]
  · simp only [updateCropFromHandle]
    rw [if_neg h]
    exact applyCropBounds_blend _ _ _ _ _

theorem applyOp_scene_blend (op : Op) (s : EditorState)
    (hb : ∀ im ∈ s.scene, im.blendMode ≠ "") (hop : opBlendOk op) :
    ∀ im ∈ (applyOp op s).scene, im.blendMode ≠ "" := by
  have hpu : (pushUndoS s).scene = s.scene := rfl
  cases op with
  | addImage ref w h nm =>
      intro im him
      simp only [applyOp, addImageS, hpu] at him
      rcases List.mem_append.mp him with hmem | hmem
      · exact hb im hmem
      · rw [List.mem_singleton.mp hmem]
        simp
  | setBlendMode mode =>
      cases hsel : getSelectedImage s with
      | none => simpa [applyOp, hsel] using hb
      | some n =>
          intro im him
          simp only [applyOp, hsel] at him
          refine replaceFirstById_pred _ s.scene n.id _ hb (fun x hx2 => ?_) im him
          exact hop
  | duplicate =>
      cases hsel : getSelectedImage s with
      | none => simpa [applyOp, hsel] using hb
      | some n =>
          intro im him
          simp only [applyOp, applySel, hsel, hpu] at him
          rcases List.mem_append.mp him with hmem | hmem
          · exact hb im hmem
          · rw [List.mem_singleton.mp hmem]
            show (duplicateImg n _).blendMode ≠ ""
            exact hb n (getSelectedImage_mem s n hsel)
  | bringToTop =>
      cases hsel : getSelectedImage s with
      | none => simpa [applyOp, hsel] using hb
      | some n =>
          intro im him
          simp only [applyOp, applySel, hsel, hpu] at him
          exact hb im (moveToTopById_subset s.scene n.id im him)
  | sendToBottom =>
      cases hsel : getSelectedImage s with
      | none => simpa [applyOp, hsel] using hb
      | some n =>
          intro im him
          simp only [applyOp, applySel, hsel, hpu] at him
          exact hb im (moveToBottomById_subset s.scene n.id im him)
  | deleteSelected =>
      cases hsel : getSelectedImage s with
      | none => simpa [applyOp, hsel] using hb
      | some n =>
          intro im him
          simp only [applyOp, applySel, hsel, hpu] at him
          exact hb im (removeFirstById_subset s.scene n.id im him)
  | cropDrag pos hx hy hw hh c sc =>
      cases hsel : getSelectedImage s with
      | none => simpa [applyOp, hsel] using hb
      | some n =>
          intro im him
          simp only [applyOp, applySel, hsel, hpu] at him
          refine replaceFirstById_pred _ s.scene n.id _ hb (fun x hx2 => ?_) im him
          rw [show (updateCropFromHandle x pos hx hy hw hh c sc).blendMode = x.blendMode from
            updateCropFromHandle_blend x pos hx hy hw hh c sc]
          exact hb x hx2
  | move nx ny =>
      cases hsel : getSelectedImage s with
      | none => simpa [applyOp, hsel] using hb
      | some n =>
          intro im him
          simp only [applyOp, applySel, hsel, hpu] at him
          refine replaceFirstById_pred _ s.scene n.id _ hb (fun x hx2 => ?_) im him
          exact hb x hx2
  | transformNode nx ny nsx nsy =>
      cases hsel : getSelectedImage s with
      | none => simpa [applyOp, hsel] using hb
      | some n =>
          intro im him
          simp only [applyOp, applySel, hsel, hpu] at him
          refine replaceFirstById_pred _ s.scene n.id _ hb (fun x hx2 => ?_) im him
          exact hb x hx2
  | resetCrop =>
      cases hsel : getSelectedImage s with
      | none => simpa [applyOp, hsel] using hb
      | some n =>
          intro im him
          simp only [applyOp, applySel, hsel, hpu] at him
          refine replaceFirstById_pred _ s.scene n.id _ hb (fun x hx2 => ?_) im him
          exact hb x hx2
  | flipH =>
      cases hsel : getSelectedImage s with
      | none => simpa [applyOp, hsel] using hb
      | some n =>
          intro im him
          simp only [applyOp, applySel, hsel, hpu] at him
          refine replaceFirstById_pred _ s.scene n.id _ hb (fun x hx2 => ?_) im him
          unfold flipHorizontalImg
          split <;> exact hb x hx2
  | flipV =>
      cases hsel : getSelectedImage s with
      | none => simpa [applyOp, hsel] using hb
      | some n =>
          intro im him
          simp only [applyOp, applySel, hsel, hpu] at him
          refine replaceFirstById_pred _ s.scene n.id _ hb (fun x hx2 => ?_) im him
          unfold flipVerticalImg
          split <;> exact hb x hx2
  | rotateL =>
      cases hsel : getSelectedImage s with
      | none => simpa [applyOp, hsel] using hb
      | some n =>
          intro im him
          simp only [applyOp, applySel, hsel, hpu] at him
          refine replaceFirstById_pred _ s.scene n.id _ hb (fun x hx2 => ?_) im him
          exact hb x hx2
  | rotateR =>
      cases hsel : getSelectedImage s with
      | none => simpa [applyOp, hsel] using hb
      | some n =>
          intro im him
          simp only [applyOp, applySel, hsel, hpu] at him
          refine replaceFirstById_pred _ s.scene n.id _ hb (fun x hx2 => ?_) im him
          exact hb x hx2
  | setOpacity percent =>
      cases hsel : getSelectedImage s with
      | none => simpa [applyOp, hsel] using hb
      | some n =>
          intro im him
          simp only [applyOp, applySel, hsel, hpu] at him
          refine replaceFirstById_pred _ s.scene n.id _ hb (fun x hx2 => ?_) im him
          exact hb x hx2

theorem applyOp_undo_stack (op : Op) (s : EditorState)
    (hpush : opPushes op s = true) :
    (applyOp op s).undoStack = dropToMax (s.undoStack ++ [captureState s.scene]) ∧
    (applyOp op s).redoStack = [] := by
  cases op <;>
    first
      | exact ⟨rfl, rfl⟩
      | (have hsome : (getSelectedImage s).isSome = true := hpush
         obtain ⟨n, hn⟩ := Option.isSome_iff_exists.mp hsome
         simp only [applyOp, hn]
         exact applySel_stacks _ n (pushUndoS s))

/-- C2: for every session and every single mutating operation that pushes
an undo snapshot, `undo()` immediately afterwards restores the scene to
the same entity count, back-to-front order and per-entity field values
(id, raster reference, original dimensions, position, scales, rotation,
crop bounds, blend mode, opacity, name) as before the operation, and
`redo()` immediately after that restores the state right after the
operation. -/
theorem undo_redo_roundtrip (s : EditorState) (op : Op)
    (hb : ∀ im ∈ s.scene, im.blendMode ≠ "") (hop : opBlendOk op)
    (hpush : opPushes op s = true) :
    (undoS (applyOp op s)).scene = s.scene ∧
    (redoS (undoS (applyOp op s))).scene = (applyOp op s).scene := by
  obtain ⟨hu, hr⟩ := applyOp_undo_stack op s hpush
  exact undo_redo_core s (applyOp op s) hu hr hb (applyOp_scene_blend op s hb hop)

/-- Witness for C2: flip the selected image of a one-image session, undo,
redo. -/
theorem undo_redo_roundtrip_witness :
    (undoS (applyOp Op.flipH stateOne)).scene = stateOne.scene ∧
    (redoS (undoS (applyOp Op.flipH stateOne))).scene = (applyOp Op.flipH stateOne).scene :=
  undo_redo_roundtrip stateOne Op.flipH
    (by
      intro im him
      simp only [stateOne, List.mem_singleton] at him
      rw [him]
      simp [imgPlain])
    trivial (by rfl)

/-! ### The non-strict crop invariant holds after every operation
(C5, amended) -/

theorem resetCropImg_inv (m : Img)
    (h : cropInv m.cropBounds m.originalWidth m.originalHeight) :
    cropInv (resetCropImg m).cropBounds (resetCropImg m).originalWidth
      (resetCropImg m).originalHeight := by
  obtain ⟨h1, h2, h3, h4, h5, h6⟩ := h
  refine ⟨le_refl 0, le_refl 0, le_refl 0, le_refl 0, ?_, ?_⟩
  · show (0:ℚ) + 0 ≤ m.originalHeight - 20
    linarith
  · show (0:ℚ) + 0 ≤ m.originalWidth - 20
    linarith

/-- C5 (amended): after every operation, each entity that satisfied the
non-strict crop invariant (components ≥ 0, `top + bottom ≤ height − 20`,
`left + right ≤ width − 20`) still satisfies it, and an added image whose
source dimensions are at least 20 px satisfies it; the sums may reach the
limit exactly, so the non-strict inequality is tight. -/
theorem crop_inv_all_ops (op : Op) (s : EditorState)
    (hinv : ∀ im ∈ s.scene, cropInv im.cropBounds im.originalWidth im.originalHeight)
    (hdim : opDimsOk op) :
    ∀ im ∈ (applyOp op s).scene,
      cropInv im.cropBounds im.originalWidth im.originalHeight := by
  have hpu : (pushUndoS s).scene = s.scene := rfl
  cases op with
  | addImage ref w h nm =>
      intro im him
      simp only [applyOp, addImageS, hpu] at him
      rcases List.mem_append.mp him with hmem | hmem
      · exact hinv im hmem
      · rw [List.mem_singleton.mp hmem]
        obtain ⟨hw20, hh20⟩ := hdim
        exact ⟨le_refl 0, le_refl 0, le_refl 0, le_refl 0,
          by show (0:ℚ) + 0 ≤ h - 20; linarith,
          by show (0:ℚ) + 0 ≤ w - 20; linarith⟩
  | cropDrag pos hx hy hw hh c sc =>
      cases hsel : getSelectedImage s with
      | none => simpa [applyOp, hsel] using hinv
      | some n =>
          intro im him
          simp only [applyOp, applySel, hsel, hpu] at him
          refine replaceFirstById_pred _ s.scene n.id _ hinv (fun x hx2 => ?_) im him
          exact updateCropFromHandle_inv x pos hx hy hw hh c sc (hinv x hx2)
  | resetCrop =>
      cases hsel : getSelectedImage s with
      | none => simpa [applyOp, hsel] using hinv
      | some n =>
          intro im him
          simp only [applyOp, applySel, hsel, hpu] at him
          refine replaceFirstById_pred _ s.scene n.id _ hinv (fun x hx2 => ?_) im him
          exact resetCropImg_inv x (hinv x hx2)
  | duplicate =>
      cases hsel : getSelectedImage s with
      | none => simpa [applyOp, hsel] using hinv
      | some n =>
          intro im him
          simp only [applyOp, applySel, hsel, hpu] at him
          rcases List.mem_append.mp him with hmem | hmem
          · exact hinv im hmem
          · rw [List.mem_singleton.mp hmem]
            exact hinv n (getSelectedImage_mem s n hsel)
  | bringToTop =>
      cases hsel : getSelectedImage s with
      | none => simpa [applyOp, hsel] using hinv
      | some n =>
          intro im him
          simp only [applyOp, applySel, hsel, hpu] at him
          exact hinv im (moveToTopById_subset s.scene n.id im him)
  | sendToBottom =>
      cases hsel : getSelectedImage s with
      | none => simpa [applyOp, hsel] using hinv
      | some n =>
          intro im him
          simp only [applyOp, applySel, hsel, hpu] at him
          exact hinv im (moveToBottomById_subset s.scene n.id im him)
  | deleteSelected =>
      cases hsel : getSelectedImage s with
      | none => simpa [applyOp, hsel] using hinv
      | some n =>
          intro im him
          simp only [applyOp, applySel, hsel, hpu] at him
          exact hinv im (removeFirstById_subset s.scene n.id im him)
  | move nx ny =>
      cases hsel : getSelectedImage s with
      | none => simpa [applyOp, hsel] using hinv
      | some n =>
          intro im him
          simp only [applyOp, applySel, hsel, hpu] at him
          refine replaceFirstById_pred _ s.scene n.id _ hinv (fun x hx2 => ?_) im him
          exact hinv x hx2
  | transformNode nx ny nsx nsy =>
      cases hsel : getSelectedImage s with
      | none => simpa [applyOp, hsel] using hinv
      | some n =>
          intro im him
          simp only [applyOp, applySel, hsel, hpu] at him
          refine replaceFirstById_pred _ s.scene n.id _ hinv (fun x hx2 => ?_) im him
          exact hinv x hx2
  | flipH =>
      cases hsel : getSelectedImage s with
      | none => simpa [applyOp, hsel] using hinv
      | some n =>
          intro im him
          simp only [applyOp, applySel, hsel, hpu] at him
          refine replaceFirstById_pred _ s.scene n.id _ hinv (fun x hx2 => ?_) im him
          unfold flipHorizontalImg
          split <;> exact hinv x hx2
  | flipV =>
      cases hsel : getSelectedImage s with
      | none => simpa [applyOp, hsel] using hinv
      | some n =>
          intro im him
          simp only [applyOp, applySel, hsel, hpu] at him
          refine replaceFirstById_pred _ s.scene n.id _ hinv (fun x hx2 => ?_) im him
          unfold flipVerticalImg
          split <;> exact hinv x hx2
  | rotateL =>
      cases hsel : getSelectedImage s with
      | none => simpa [applyOp, hsel] using hinv
      | some n =>
          intro im him
          simp only [applyOp, applySel, hsel, hpu] at him
          refine replaceFirstById_pred _ s.scene n.id _ hinv (fun x hx2 => ?_) im him
          exact hinv x hx2
  | rotateR =>
      cases hsel : getSelectedImage s with
      | none => simpa [applyOp, hsel] using hinv
      | some n =>
          intro im him
          simp only [applyOp, applySel, hsel, hpu] at him
          refine replaceFirstById_pred _ s.scene n.id _ hinv (fun x hx2 => ?_) im him
          exact hinv x hx2
  | setBlendMode mode =>
      cases hsel : getSelectedImage s with
      | none => simpa [applyOp, hsel] using hinv
      | some n =>
          intro im him
          simp only [applyOp, applySel, hsel, hpu] at him
          refine replaceFirstById_pred _ s.scene n.id _ hinv (fun x hx2 => ?_) im him
          exact hinv x hx2
  | setOpacity percent =>
      cases hsel : getSelectedImage s with
      | none => simpa [applyOp, hsel] using hinv
      | some n =>
          intro im him
          simp only [applyOp, applySel, hsel, hpu] at him
          refine replaceFirstById_pred _ s.scene n.id _ hinv (fun x hx2 => ?_) im him
          exact hinv x hx2

/-- Witness for the amended C5: after resetting the crop of the selected
image, the resulting scene image satisfies the crop invariant. -/
theorem crop_inv_all_ops_witness :
    cropInv (resetCropImg imgPlain).cropBounds (resetCropImg imgPlain).originalWidth
      (resetCropImg imgPlain).originalHeight :=
  crop_inv_all_ops Op.resetCrop stateOne
    (by
      intro im him
      simp only [stateOne, List.mem_singleton] at him
      rw [him]
      exact ⟨by norm_num [imgPlain], by norm_num [imgPlain], by norm_num [imgPlain],
        by norm_num [imgPlain], by norm_num [imgPlain], by norm_num [imgPlain]⟩)
    trivial
    (resetCropImg imgPlain)
    (by
      show resetCropImg imgPlain ∈ [resetCropImg imgPlain]
      exact List.mem_singleton_self _)

/-! ### Project load: abort vs skip (C8) -/

theorem loadProject_ok (a : Archive) (s : EditorState) (entries : List SnapImg) (nid1 : ℕ)
    (hdes : deserializeStateFromZip a s.nextId = .ok (entries, nid1)) :
    loadProject a s =
      { restoreStateS
          (captureState s.scene ++
            assignZ
              (assignNewIds entries
                (if entries.isEmpty then 0
                  else (viewportCenter s).1 -
                    (listMin (entries.map fun e => e.img.x) +
                      listMax (entries.map fun e => e.img.x)) / 2)
                (if entries.isEmpty then 0
                  else (viewportCenter s).2 -
                    (listMin (entries.map fun e => e.img.y) +
                      listMax (entries.map fun e => e.img.y)) / 2)
                nid1)
              (maxZIndex (captureState s.scene) + 1))
          (pushUndoS s) with
        imageCount := s.imageCount + entries.length
        nextId := nid1 + entries.length } := by
  unfold loadProject
  rw [hdes]
  rfl

theorem insertZ_length (a : SnapImg) (l : List SnapImg) :
    (insertZ a l).length = l.length + 1 := by
  induction l with
  | nil => rfl
  | cons b t ih =>
      simp only [insertZ]
      split
      · simp
      · simp [ih]

theorem sortZ_length (l : List SnapImg) : (sortZ l).length = l.length := by
  induction l with
  | nil => rfl
  | cons a t ih => rw [sortZ, insertZ_length, ih]; simp

theorem restoreScene_length (e : List SnapImg) :
    (restoreScene e).length = e.length := by
  unfold restoreScene
  rw [List.length_map, sortZ_length]

theorem captureAux_length (k : ℤ) (l : List Img) :
    (captureAux k l).length = l.length := by
  induction l generalizing k with
  | nil => rfl
  | cons im t ih => rw [captureAux, List.length_cons, ih]; simp

theorem assignNewIds_length (l : List SnapImg) (oX oY : ℚ) (nid : ℕ) :
    (assignNewIds l oX oY nid).length = l.length := by
  induction l generalizing nid with
  | nil => rfl
  | cons e t ih => rw [assignNewIds, List.length_cons, ih]; simp

theorem assignZ_length (l : List SnapImg) (z : ℤ) :
    (assignZ l z).length = l.length := by
  induction l generalizing z with
  | nil => rfl
  | cons e t ih => rw [assignZ, List.length_cons, ih]; simp

theorem deserializeImages_length (a : Archive) (l : List ArchiveImage) (i nid : ℕ) :
    (deserializeImages a l i nid).1.length =
      (l.filter (fun d => (findFile a d.filename).isSome)).length := by
  induction l generalizing i nid with
  | nil => rfl
  | cons d t ih =>
      rw [deserializeImages]
      cases hf : findFile a d.filename with
      | none =>
          rw [List.filter_cons]
          simp only [hf, Option.isSome_none, Bool.false_eq_true, if_false]
          exact ih (i + 1) nid
      | some f =>
          rw [List.filter_cons]
          simp only [hf, Option.isSome_some, if_true]
          rw [List.length_cons, ih (i + 1) _]
          rfl

theorem loadProject_none (a : Archive) (s : EditorState)
    (h : a.projectJson = none) : loadProject a s = s := by
  unfold loadProject deserializeStateFromZip
  rw [h]

theorem loadProject_counts (a : Archive) (pd : List ArchiveImage) (s : EditorState)
    (h : a.projectJson = some pd) :
    (loadProject a s).scene.length =
      s.scene.length + (pd.filter (fun d => (findFile a d.filename).isSome)).length ∧
    (loadProject a s).undoStack = dropToMax (s.undoStack ++ [captureState s.scene]) := by
  have hdes : deserializeStateFromZip a s.nextId =
      .ok ((deserializeImages a pd 0 s.nextId).1, (deserializeImages a pd 0 s.nextId).2) := by
    unfold deserializeStateFromZip
    rw [h]
  rw [loadProject_ok a s _ _ hdes]
  constructor
  · show (restoreScene _).length = _
    rw [restoreScene_length, List.length_append, assignZ_length, assignNewIds_length]
    show (captureState s.scene).length + _ = _
    rw [show (captureState s.scene).length = s.scene.length from captureAux_length 0 s.scene,
      deserializeImages_length]
  · rfl

/-- C8 counterexample: an archive referencing `1.png` that is absent from
the `images/` folder does NOT abort: the load merges the remaining image
(one entity appears) and pushes an undo snapshot, contradicting
"operation aborted, no partial Scene mutation applied, no undo snapshot
pushed". -/
theorem load_missing_image_counterexample :
    findFile archiveMissingImage "1.png" = none ∧
    (loadProject archiveMissingImage (initState 800 600)).scene.length = 1 ∧
    (loadProject archiveMissingImage (initState 800 600)).undoStack.length = 1 := by
  refine ⟨rfl, ?_, ?_⟩
  · rw [(loadProject_counts archiveMissingImage _ (initState 800 600) rfl).1]
    rfl
  · rw [(loadProject_counts archiveMissingImage _ (initState 800 600) rfl).2]
    rfl

/-- C8 (amended): a missing `project.json` aborts the load with a
user-visible report and no state change at all; but a referenced image
file missing from the `images/` folder only causes that entry to be
skipped (with a console warning): the remaining entries are still merged
into the scene and one undo snapshot is still pushed. -/
theorem load_missing_entries (a : Archive) :
    (∀ s : EditorState, a.projectJson = none → loadProject a s = s) ∧
    (∀ (pd : List ArchiveImage) (s : EditorState), a.projectJson = some pd →
      (loadProject a s).scene.length =
        s.scene.length + (pd.filter (fun d => (findFile a d.filename).isSome)).length ∧
      (loadProject a s).undoStack = dropToMax (s.undoStack ++ [captureState s.scene])) :=
  ⟨fun s h => loadProject_none a s h, fun pd s h => loadProject_counts a pd s h⟩

/-- Witness for the amended C8 on a concrete archive missing `project.json`
and on the archive missing `1.png`. -/
theorem load_missing_entries_witness :
    loadProject ⟨none, []⟩ (initState 800 600) = initState 800 600 :=
  (load_missing_entries ⟨none, []⟩).1 (initState 800 600) rfl

/-! ### Project load: merge semantics (C9) -/

theorem deserializeImages_mono (a : Archive) (l : List ArchiveImage) (i nid : ℕ) :
    nid ≤ (deserializeImages a l i nid).2 := by
  induction l generalizing i nid with
  | nil => exact le_refl nid
  | cons d t ih =>
      rw [deserializeImages]
      cases hf : findFile a d.filename with
      | none => exact ih (i + 1) nid
      | some f =>
          cases hid : d.id? with
          | some j =>
              simp only [hid]
              exact ih (i + 1) nid
          | none =>
              simp only [hid]
              exact le_trans (Nat.le_succ nid) (ih (i + 1) (nid + 1))

theorem assignNewIds_mem_ge (l : List SnapImg) (oX oY : ℚ) (nid : ℕ) :
    ∀ e ∈ assignNewIds l oX oY nid, nid ≤ e.img.id := by
  induction l generalizing nid with
  | nil =>
      intro e he
      exact absurd he (List.not_mem_nil e)
  | cons b t ih =>
      intro e he
      rw [assignNewIds] at he
      rcases List.mem_cons.mp he with rfl | he'
      · exact le_refl nid
      · have := ih (nid + 1) e he'
        omega

theorem assignNewIds_map_x (l : List SnapImg) (oX oY : ℚ) (nid : ℕ) :
    (assignNewIds l oX oY nid).map (fun e => e.img.x) =
      l.map (fun e => e.img.x + oX) := by
  induction l generalizing nid with
  | nil => rfl
  | cons b t ih =>
      rw [assignNewIds, List.map_cons, List.map_cons, ih (nid + 1)]

theorem assignNewIds_map_y (l : List SnapImg) (oX oY : ℚ) (nid : ℕ) :
    (assignNewIds l oX oY nid).map (fun e => e.img.y) =
      l.map (fun e => e.img.y + oY) := by
  induction l generalizing nid with
  | nil => rfl
  | cons b t ih =>
      rw [assignNewIds, List.map_cons, List.map_cons, ih (nid + 1)]

theorem assignZ_mem_ge (l : List SnapImg) (z : ℤ) :
    ∀ e ∈ assignZ l z, z ≤ e.zIndex := by
  induction l generalizing z with
  | nil =>
      intro e he
      exact absurd he (List.not_mem_nil e)
  | cons b t ih =>
      intro e he
      rw [assignZ] at he
      rcases List.mem_cons.mp he with rfl | he'
      · exact le_refl z
      · have := ih (z + 1) e he'
        omega

theorem assignZ_map_img (l : List SnapImg) (z : ℤ) :
    (assignZ l z).map SnapImg.img = l.map SnapImg.img := by
  induction l generalizing z with
  | nil => rfl
  | cons b t ih =>
      rw [assignZ, List.map_cons, List.map_cons, ih (z + 1)]

theorem assignZ_chain (l : List SnapImg) (z : ℤ) :
    List.Chain' (fun a b : SnapImg => a.zIndex < b.zIndex) (assignZ l z) := by
  induction l generalizing z with
  | nil => exact List.chain'_nil
  | cons b t ih =>
      rw [assignZ]
      apply List.chain'_cons'.mpr
      refine ⟨?_, ih (z + 1)⟩
      intro y hy
      have hmem : y ∈ assignZ t (z + 1) := List.mem_of_mem_head? hy
      have := assignZ_mem_ge t (z + 1) y hmem
      show z < y.zIndex
      omega

theorem foldl_max_ge_init (t : List SnapImg) (z : ℤ) :
    z ≤ t.foldl (fun acc x => max acc x.zIndex) z := by
  induction t generalizing z with
  | nil => exact le_refl z
  | cons b t ih =>
      rw [List.foldl_cons]
      exact le_trans (le_max_left z b.zIndex) (ih (max z b.zIndex))

theorem foldl_max_ge_mem (t : List SnapImg) (z : ℤ) :
    ∀ x ∈ t, x.zIndex ≤ t.foldl (fun acc x => max acc x.zIndex) z := by
  induction t generalizing z with
  | nil =>
      intro x hx
      exact absurd hx (List.not_mem_nil x)
  | cons b t ih =>
      intro x hx
      rw [List.foldl_cons]
      rcases List.mem_cons.mp hx with rfl | hx'
      · exact le_trans (le_max_right z x.zIndex) (foldl_max_ge_init t (max z x.zIndex))
      · exact ih (max z b.zIndex) x hx'

theorem maxZIndex_ge (l : List SnapImg) : ∀ x ∈ l, x.zIndex ≤ maxZIndex l := by
  cases l with
  | nil =>
      intro x hx
      exact absurd hx (List.not_mem_nil x)
  | cons e t =>
      intro x hx
      show x.zIndex ≤ t.foldl (fun acc y => max acc y.zIndex) e.zIndex
      rcases List.mem_cons.mp hx with rfl | hx'
      · exact foldl_max_ge_init t x.zIndex
      · exact foldl_max_ge_mem t e.zIndex x hx'

theorem foldl_min_shift (f : SnapImg → ℚ) (t : List SnapImg) (x c : ℚ) :
    (t.map fun e => f e + c).foldl min (x + c) = (t.map f).foldl min x + c := by
  induction t generalizing x with
  | nil => rfl
  | cons b t ih =>
      rw [List.map_cons, List.map_cons, List.foldl_cons, List.foldl_cons,
        min_add_add_right, ih (min x (f b))]

theorem foldl_max_shift (f : SnapImg → ℚ) (t : List SnapImg) (x c : ℚ) :
    (t.map fun e => f e + c).foldl max (x + c) = (t.map f).foldl max x + c := by
  induction t generalizing x with
  | nil => rfl
  | cons b t ih =>
      rw [List.map_cons, List.map_cons, List.foldl_cons, List.foldl_cons,
        max_add_add_right, ih (max x (f b))]

theorem listMin_shift (f : SnapImg → ℚ) (l : List SnapImg) (c : ℚ) (h : l ≠ []) :
    listMin (l.map fun e => f e + c) = listMin (l.map f) + c := by
  cases l with
  | nil => exact absurd rfl h
  | cons b t =>
      rw [List.map_cons, List.map_cons]
      show (t.map fun e => f e + c).foldl min (f b + c) = (t.map f).foldl min (f b) + c
      exact foldl_min_shift f t (f b) c

theorem listMax_shift (f : SnapImg → ℚ) (l : List SnapImg) (c : ℚ) (h : l ≠ []) :
    listMax (l.map fun e => f e + c) = listMax (l.map f) + c := by
  cases l with
  | nil => exact absurd rfl h
  | cons b t =>
      rw [List.map_cons, List.map_cons]
      show (t.map fun e => f e + c).foldl max (f b + c) = (t.map f).foldl max (f b) + c
      exact foldl_max_shift f t (f b) c

/-- C9: `loadProject` on a well-formed archive merges rather than replaces:
the pre-existing images persist unchanged (and below) with the loaded
entities appended above them; every loaded entity receives a fresh
generator id (at least `nid1`, hence distinct from every pre-existing id
and from every archived id, both of which lie below the generator
counter); all loaded entities are translated by the one common offset
`(offX, offY)`, after which the midpoint of their x- and y-extents is the
viewport centre; every loaded entry's assigned `zIndex` is strictly above
every pre-existing entry's; and exactly one undo snapshot of the
pre-merge scene is pushed, with the redo stack cleared. -/
theorem load_merges (a : Archive) (pd : List ArchiveImage) (s : EditorState)
    (entries : List SnapImg) (nid1 : ℕ) (offX offY : ℚ)
    (hpd : a.projectJson = some pd)
    (hdes : deserializeImages a pd 0 s.nextId = (entries, nid1))
    (hb : ∀ im ∈ s.scene, im.blendMode ≠ "")
    (hids : ∀ im ∈ s.scene, im.id < s.nextId)
    (harch : ∀ d ∈ pd, ∀ j, d.id? = some j → j < s.nextId)
    (hne : entries ≠ [])
    (hoX : offX = (viewportCenter s).1 -
      (listMin (entries.map fun e => e.img.x) +
        listMax (entries.map fun e => e.img.x)) / 2)
    (hoY : offY = (viewportCenter s).2 -
      (listMin (entries.map fun e => e.img.y) +
        listMax (entries.map fun e => e.img.y)) / 2) :
    (loadProject a s).scene =
      s.scene ++ (assignNewIds entries offX offY nid1).map SnapImg.img ∧
    (∀ im ∈ (assignNewIds entries offX offY nid1).map SnapImg.img,
      nid1 ≤ im.id ∧ (∀ im0 ∈ s.scene, im0.id ≠ im.id) ∧
        ∀ d ∈ pd, ∀ j, d.id? = some j → im.id ≠ j) ∧
    (loadProject a s).nextId = nid1 + entries.length ∧
    (assignNewIds entries offX offY nid1).map (fun e => e.img.x) =
      entries.map (fun e => e.img.x + offX) ∧
    (assignNewIds entries offX offY nid1).map (fun e => e.img.y) =
      entries.map (fun e => e.img.y + offY) ∧
    (listMin ((assignNewIds entries offX offY nid1).map fun e => e.img.x) +
        listMax ((assignNewIds entries offX offY nid1).map fun e => e.img.x)) / 2 =
      (viewportCenter s).1 ∧
    (listMin ((assignNewIds entries offX offY nid1).map fun e => e.img.y) +
        listMax ((assignNewIds entries offX offY nid1).map fun e => e.img.y)) / 2 =
      (viewportCenter s).2 ∧
    (∀ e ∈ assignZ (assignNewIds entries offX offY nid1)
        (maxZIndex (captureState s.scene) + 1),
      ∀ c ∈ captureState s.scene, c.zIndex < e.zIndex) ∧
    (loadProject a s).undoStack = dropToMax (s.undoStack ++ [captureState s.scene]) ∧
    (loadProject a s).redoStack = [] := by
  have hdes' : deserializeStateFromZip a s.nextId = .ok (entries, nid1) := by
    unfold deserializeStateFromZip
    rw [hpd]
    show Except.ok (deserializeImages a pd 0 s.nextId) = _
    rw [hdes]
  have hie : entries.isEmpty = false := by
    cases entries with
    | nil => exact absurd rfl hne
    | cons e t => rfl
  have hmono : s.nextId ≤ nid1 := by
    have h := deserializeImages_mono a pd 0 s.nextId
    rw [hdes] at h
    exact h
  have hchain : List.Chain' (fun a b : SnapImg => a.zIndex < b.zIndex)
      (captureState s.scene ++
        assignZ (assignNewIds entries offX offY nid1)
          (maxZIndex (captureState s.scene) + 1)) := by
    rw [List.chain'_append]
    refine ⟨captureAux_chain 0 s.scene, assignZ_chain _ _, ?_⟩
    intro x hx y hy
    have hx2 := maxZIndex_ge (captureState s.scene) x (List.mem_of_mem_getLast? hx)
    have hy2 := assignZ_mem_ge _ _ y (List.mem_of_mem_head? hy)
    show x.zIndex < y.zIndex
    omega
  rw [loadProject_ok a s entries nid1 hdes']
  refine ⟨?_, ?_, rfl, assignNewIds_map_x entries offX offY nid1,
    assignNewIds_map_y entries offX offY nid1, ?_, ?_, ?_, rfl, rfl⟩
  · simp only [hie, Bool.false_eq_true, if_false]
    rw [← hoX, ← hoY, restoreStateS_scene]
    unfold restoreScene
    rw [sortZ_sorted_id _ hchain, List.map_append, assignZ_map_img]
    rw [show (captureState s.scene).map SnapImg.img = s.scene from
      map_img_captureAux 0 s.scene hb]
  · intro im him
    obtain ⟨e, he, rfl⟩ := List.mem_map.mp him
    have hlow := assignNewIds_mem_ge entries offX offY nid1 e he
    refine ⟨hlow, ?_, ?_⟩
    · intro im0 him0
      have := hids im0 him0
      omega
    · intro d hd j hj
      have := harch d hd j hj
      omega
  · rw [assignNewIds_map_x]
    have hmn : listMin (entries.map fun e => e.img.x + offX) =
        listMin (entries.map fun e => e.img.x) + offX :=
      listMin_shift (fun e => e.img.x) entries offX hne
    have hmx : listMax (entries.map fun e => e.img.x + offX) =
        listMax (entries.map fun e => e.img.x) + offX :=
      listMax_shift (fun e => e.img.x) entries offX hne
    rw [hmn, hmx, hoX]
    ring
  · rw [assignNewIds_map_y]
    have hmn : listMin (entries.map fun e => e.img.y + offY) =
        listMin (entries.map fun e => e.img.y) + offY :=
      listMin_shift (fun e => e.img.y) entries offY hne
    have hmx : listMax (entries.map fun e => e.img.y + offY) =
        listMax (entries.map fun e => e.img.y) + offY :=
      listMax_shift (fun e => e.img.y) entries offY hne
    rw [hmn, hmx, hoY]
    ring
  · intro e he c hc
    have h1 := maxZIndex_ge (captureState s.scene) c hc
    have h2 := assignZ_mem_ge _ _ e he
    omega

/-- Witness for C9: loading the complete two-image archive into a fresh
800×600 session pushes exactly one undo snapshot of the (empty) pre-merge
scene and clears the redo stack. -/
theorem load_merges_witness :
    (loadProject archiveTwo (initState 800 600)).undoStack =
      dropToMax ((initState 800 600).undoStack ++
        [captureState (initState 800 600).scene]) ∧
    (loadProject archiveTwo (initState 800 600)).redoStack = [] := by
  have h := load_merges archiveTwo _ (initState 800 600) _ _ _ _ rfl rfl
    (by
      intro im him
      exact absurd him (List.not_mem_nil im))
    (by
      intro im him
      exact absurd him (List.not_mem_nil im))
    (by
      intro d hd j hj
      rcases List.mem_cons.mp hd with rfl | hd'
      · simp at hj
      · rcases List.mem_cons.mp hd' with rfl | hd''
        · simp at hj
        · exact absurd hd'' (List.not_mem_nil d))
    (by
      intro hnil
      exact absurd (congrArg List.length hnil) (by decide))
    rfl rfl
  exact ⟨h.2.2.2.2.2.2.2.2.1, h.2.2.2.2.2.2.2.2.2⟩

end Symmetries
